import Mathlib

/-!
# Verification of the deviantart_watcher reconciliation engine

Shallow embedding, in Lean 4, of the parts of the `deviantart_watcher`
repository that the frozen claims are about:

* `da_watcher/storage.py` — `sanitize_filename`, `build_output_path`;
* `da_watcher/api.py` — `DeviantArtClient.download_file`;
* `da_watcher/database.py` — the seen/catalog store operations
  (`get_seen_ids`, `get_seeded_ids`, `upsert_seen`, `remove_seen_ids`,
  `trim_seen`, `upsert_image`, `sync_images_from_filesystem`,
  `delete_image`, `_normalize_tags`);
* `da_watcher/watcher.py` — `collect_local_deviation_ids`,
  `normalize_tags`, `extract_item_tags`, `process_user_once`.

Python strings are modelled as Lean `String` (whitespace handling is the
ASCII fragment of Python's), the SQLite tables as Lean lists of rows with
explicit autoincrement counters, the filesystem as a list of file entries,
and the network as explicit oracles.  Machine-level concerns (timestamps,
symlinks, percent-decoding of URLs) that no claim depends on are omitted
where noted in the doc comments.
-/

namespace DAW

/-! ## Python string primitives (ASCII fragment) -/

/-- ASCII whitespace, the fragment of `str.strip()` / `\s` used here. -/
def isPySpace (c : Char) : Bool :=
  c = ' ' || c = '\t' || c = '\n' || c = '\x0d' || c = '\x0b' || c = '\x0c'

/-- Drop leading and trailing characters satisfying `p` (Python `str.strip`). -/
def pyStripListWith (p : Char → Bool) (l : List Char) : List Char :=
  ((l.dropWhile p).reverse.dropWhile p).reverse

/-- Python `str.strip()` (ASCII whitespace). -/
def pyStrip (s : String) : String :=
  ⟨pyStripListWith isPySpace s.data⟩

/-- Python `str.strip(".")`. -/
def pyStripDots (s : String) : String :=
  ⟨pyStripListWith (· = '.') s.data⟩

/-- ASCII lower-casing of one character. -/
def lowerChar (c : Char) : Char :=
  if 'A' ≤ c && c ≤ 'Z' then Char.ofNat (c.toNat + 32) else c

/-- Python `str.lower()` (ASCII fragment). -/
def pyLower (s : String) : String := ⟨s.data.map lowerChar⟩

/-- Python `sep.join(parts)`. -/
def pyJoin (sep : String) : List String → String
  | [] => ""
  | [x] => x
  | x :: y :: rest => ⟨x.data ++ sep.data ++ (pyJoin sep (y :: rest)).data⟩

/-- Index of the first occurrence of `c`, or `none` (Python `str.find` for a
single-character needle, with `-1` rendered as `none`). -/
def pyFindChar (s : String) (c : Char) : Option Nat :=
  s.data.indexOf? c

/-- Python truthiness for strings composed with `or`: `a or b`. -/
def pyOrStr (a b : String) : String := if a = "" then b else a

/-! ## `storage.sanitize_filename` -/

/-- The character class of `INVALID_FILE_CHARS = r'[<>:"/\\|?*\x00-\x1f]'`. -/
def isInvalidFileChar (c : Char) : Bool :=
  c = '<' || c = '>' || c = ':' || c = '"' || c = '/' || c = '\\' ||
  c = '|' || c = '?' || c = '*' || c.toNat ≤ 0x1f

/-- `INVALID_FILE_CHARS.sub("_", name)`. -/
def replaceInvalidChars (l : List Char) : List Char :=
  l.map fun c => if isInvalidFileChar c then '_' else c

/-- `re.sub(r"\s+", " ", s)`: collapse every run of whitespace characters to a
single space. -/
def collapseWs : List Char → List Char
  | [] => []
  | c :: rest =>
    let tail := collapseWs rest
    if isPySpace c then
      if tail.head? = some ' ' then tail else ' ' :: tail
    else c :: tail

/-- The intermediate `cleaned` value of `sanitize_filename` just before the
empty-fallback check: replace invalid characters, strip whitespace, strip
dots, then collapse whitespace runs (exactly the order of the source). -/
def sanitizeCleaned (name : String) : String :=
  ⟨collapseWs (pyStripListWith (· = '.')
      (pyStripListWith isPySpace (replaceInvalidChars name.data)))⟩

/-- `storage.sanitize_filename(name, fallback="deviation")`. -/
def sanitize_filename (name : String) (fallback : String := "deviation") : String :=
  let cleaned := sanitizeCleaned name
  ⟨(if cleaned = "" then fallback else cleaned).data.take 120⟩

/-! ## Tag normalization (`watcher.normalize_tags`, `database._normalize_tags`) -/

/-- The common scanning loop of both tag normalizers: strip each tag, drop
empty ones, and keep the first occurrence of each case-insensitive key. -/
def normalizeTagsLoop (seen : List String) : List String → List String
  | [] => []
  | raw :: rest =>
    let tag := pyStrip raw
    if tag = "" then normalizeTagsLoop seen rest
    else
      let key := pyLower tag
      if key ∈ seen then normalizeTagsLoop seen rest
      else tag :: normalizeTagsLoop (key :: seen) rest

/-- `watcher.normalize_tags(values)`. -/
def normalize_tags (values : List String) : List String :=
  normalizeTagsLoop [] values

/-- `WatcherDatabase._normalize_tags(tags)`: same scan, joined with `", "`.
The `None` argument case of the source coincides with the empty list. -/
def normalizeTagsDb (tags : List String) : String :=
  if tags.isEmpty then ""
  else pyJoin ", " (normalizeTagsLoop [] tags)

/-! Spec-side restatement of the tag normalization, written from the spec's
words for the refinement claim C9: trim each tag, drop empties, dedupe
case-insensitively keeping the first occurrence's casing and the original
order, join with `", "`. -/

/-- Spec wording: order-preserving case-insensitive dedup, first casing kept. -/
def specDedupCaseless : List String → List String
  | [] => []
  | t :: rest =>
    t :: specDedupCaseless (rest.filter fun x => pyLower x ≠ pyLower t)
termination_by l => l.length
decreasing_by
  simpa using Nat.lt_succ_of_le (List.length_filter_le _ rest)

/-- Spec wording of the stored tag string (claim C9). -/
def specNormalizeTags (tags : List String) : String :=
  pyJoin ", "
    (specDedupCaseless ((tags.map pyStrip).filter (· ≠ "")))

/-! ## Helper lemmas on the string primitives -/

theorem pyStripListWith_sublist (p : Char → Bool) (l : List Char) :
    (pyStripListWith p l).Sublist l := by
  have h1 : (pyStripListWith p l).Sublist ((l.dropWhile p).reverse.reverse) :=
    List.Sublist.reverse (List.dropWhile_sublist p)
  rw [List.reverse_reverse] at h1
  exact h1.trans (List.dropWhile_sublist p)

/-- The head of a `dropWhile` result never satisfies the dropped predicate,
phrased with `Option.all`. -/
theorem head?_dropWhile_all (p : α → Bool) (l : List α) :
    ((l.dropWhile p).head?).all (fun a => !p a) = true := by
  have h := List.head?_dropWhile_not p l
  cases hh : (l.dropWhile p).head? with
  | none => rfl
  | some a => rw [hh] at h; simp [Option.all, h]

/-- `dropWhile` only removes elements from the front, so a nonempty result
keeps the last element. -/
theorem getLast?_dropWhile_of_ne_nil (p : α → Bool) :
    ∀ l : List α, l.dropWhile p ≠ [] → (l.dropWhile p).getLast? = l.getLast?
  | [], h => by simp [List.dropWhile] at h
  | a :: t, h => by
    by_cases hp : p a = true
    · have hd : (a :: t).dropWhile p = t.dropWhile p := by
        simp [List.dropWhile, hp]
      rw [hd] at h ⊢
      have ht : t ≠ [] := by
        intro he; subst he; simp [List.dropWhile] at h
      rw [getLast?_dropWhile_of_ne_nil p t h]
      cases t with
      | nil => exact absurd rfl ht
      | cons b u => rw [List.getLast?_cons_cons]
    · simp [List.dropWhile, hp]

theorem pyStripListWith_head_all (p : Char → Bool) (l : List Char) :
    ((pyStripListWith p l).head?).all (fun a => !p a) = true := by
  unfold pyStripListWith
  rw [List.head?_reverse]
  by_cases h : ((l.dropWhile p).reverse.dropWhile p) = []
  · rw [h]; rfl
  · rw [getLast?_dropWhile_of_ne_nil p _ h, List.getLast?_reverse]
    exact head?_dropWhile_all p l

theorem pyStripListWith_getLast_all (p : Char → Bool) (l : List Char) :
    ((pyStripListWith p l).getLast?).all (fun a => !p a) = true := by
  unfold pyStripListWith
  rw [List.getLast?_reverse]
  exact head?_dropWhile_all p _

theorem collapseWs_ne_nil : ∀ {l : List Char}, l ≠ [] → collapseWs l ≠ []
  | [], h => absurd rfl h
  | c :: rest, _ => by
    rw [collapseWs]
    by_cases hc : isPySpace c = true
    · simp only [hc, if_true]
      by_cases hh : (collapseWs rest).head? = some ' '
      · rw [if_pos hh]
        intro he
        rw [he] at hh
        simp at hh
      · rw [if_neg hh]; simp
    · simp [hc]

theorem collapseWs_head? (l : List Char) :
    (collapseWs l).head? = l.head?.map (fun c => if isPySpace c then ' ' else c) := by
  cases l with
  | nil => rfl
  | cons c rest =>
    rw [collapseWs]
    by_cases hc : isPySpace c = true
    · simp only [hc, if_true]
      by_cases hh : (collapseWs rest).head? = some ' '
      · rw [if_pos hh, hh]; simp [hc]
      · rw [if_neg hh]; simp [hc]
    · simp [hc]

theorem collapseWs_getLast? : ∀ l : List Char,
    (collapseWs l).getLast? = l.getLast?.map (fun c => if isPySpace c then ' ' else c)
  | [] => rfl
  | c :: rest => by
    rw [collapseWs]
    cases hr : rest with
    | nil =>
      by_cases hc : isPySpace c = true <;> simp [collapseWs, hc]
    | cons b u =>
      have htne : collapseWs (b :: u) ≠ [] := collapseWs_ne_nil (by simp)
      have hIH := collapseWs_getLast? (b :: u)
      have hcons : ∀ x : Char, (x :: collapseWs (b :: u)).getLast? = (collapseWs (b :: u)).getLast? := by
        intro x
        cases ht : collapseWs (b :: u) with
        | nil => exact absurd ht htne
        | cons d ds => rw [List.getLast?_cons_cons]
      by_cases hc : isPySpace c = true
      · simp only [hc, if_true]
        by_cases hh : (collapseWs (b :: u)).head? = some ' '
        · rw [if_pos hh, hIH, List.getLast?_cons_cons]
        · rw [if_neg hh, hcons, hIH, List.getLast?_cons_cons]
      · rw [if_neg hc]
        rw [hcons, hIH, List.getLast?_cons_cons]

theorem collapseWs_all (P : Char → Bool) (hsp : P ' ' = true) :
    ∀ l : List Char, l.all P = true → (collapseWs l).all P = true
  | [], _ => rfl
  | c :: rest, h => by
    rw [List.all_cons, Bool.and_eq_true] at h
    have hIH := collapseWs_all P hsp rest h.2
    rw [collapseWs]
    by_cases hc : isPySpace c = true
    · simp only [hc, if_true]
      by_cases hh : (collapseWs rest).head? = some ' '
      · rw [if_pos hh]; exact hIH
      · rw [if_neg hh, List.all_cons, Bool.and_eq_true]
        exact ⟨hsp, hIH⟩
    · rw [if_neg hc]
      rw [List.all_cons, Bool.and_eq_true]
      exact ⟨h.1, hIH⟩

/-- Every whitespace character surviving `collapseWs` is a plain space. -/
theorem collapseWs_ws_space :
    ∀ l : List Char, (collapseWs l).all (fun c => !isPySpace c || c = ' ') = true
  | [] => rfl
  | c :: rest => by
    have hIH := collapseWs_ws_space rest
    rw [collapseWs]
    by_cases hc : isPySpace c = true
    · simp only [hc, if_true]
      by_cases hh : (collapseWs rest).head? = some ' '
      · rw [if_pos hh]; exact hIH
      · rw [if_neg hh, List.all_cons, Bool.and_eq_true]
        exact ⟨by simp, hIH⟩
    · rw [if_neg hc]
      rw [List.all_cons, Bool.and_eq_true]
      exact ⟨by simp [hc], hIH⟩

/-- `true` iff the character list contains no two adjacent whitespace
characters (whitespace runs are collapsed). -/
def noWsRun : List Char → Bool
  | c :: d :: rest => !(isPySpace c && isPySpace d) && noWsRun (d :: rest)
  | _ => true

theorem noWsRun_collapseWs : ∀ l : List Char, noWsRun (collapseWs l) = true
  | [] => rfl
  | c :: rest => by
    have hIH := noWsRun_collapseWs rest
    have hws := collapseWs_ws_space rest
    rw [collapseWs]
    by_cases hc : isPySpace c = true
    · simp only [hc, if_true]
      by_cases hh : (collapseWs rest).head? = some ' '
      · rw [if_pos hh]; exact hIH
      · rw [if_neg hh]
        cases ht : collapseWs rest with
        | nil => rfl
        | cons d ds =>
          rw [ht] at hIH hws hh
          have hdw : isPySpace d = false := by
            rw [List.all_cons, Bool.and_eq_true] at hws
            rcases Bool.or_eq_true_iff.mp hws.1 with h | h
            · simpa using h
            · exact absurd (by simpa using h) (by simpa using hh)
          simp [noWsRun, hdw, hIH]
    · rw [if_neg hc]
      cases ht : collapseWs rest with
      | nil => rfl
      | cons d ds =>
        rw [ht] at hIH
        simp [noWsRun, hc, hIH]

/-! ## Claim C9: tag normalization -/

theorem normalizeTagsLoop_eq : ∀ (l seen : List String),
    normalizeTagsLoop seen l =
      specDedupCaseless (((l.map pyStrip).filter (fun t => t ≠ "")).filter
        (fun t => pyLower t ∉ seen))
  | [], seen => by simp [normalizeTagsLoop, specDedupCaseless]
  | raw :: rest, seen => by
    simp only [normalizeTagsLoop, List.map_cons, List.filter_cons]
    by_cases h0 : pyStrip raw = ""
    · rw [if_pos h0, if_neg (show ¬(decide (pyStrip raw ≠ "") = true) by simp [h0])]
      exact normalizeTagsLoop_eq rest seen
    · rw [if_neg h0, if_pos (show decide (pyStrip raw ≠ "") = true by simp [h0]),
        List.filter_cons]
      by_cases h1 : pyLower (pyStrip raw) ∈ seen
      · rw [if_pos h1,
          if_neg (show ¬(decide (pyLower (pyStrip raw) ∉ seen) = true) by simp [h1])]
        exact normalizeTagsLoop_eq rest seen
      · rw [if_neg h1,
          if_pos (show decide (pyLower (pyStrip raw) ∉ seen) = true by simp [h1])]
        simp only [specDedupCaseless]
        congr 1
        rw [normalizeTagsLoop_eq rest (pyLower (pyStrip raw) :: seen)]
        congr 1
        rw [List.filter_filter, List.filter_filter, List.filter_filter]
        apply List.filter_congr
        intro x _
        by_cases hx1 : pyLower x = pyLower (pyStrip raw) <;>
          by_cases hx2 : pyLower x ∈ seen <;>
            simp [hx1, hx2, List.mem_cons]

/-- C9: for every tag sequence, `_normalize_tags` stores exactly the
spec-described normalization — each tag trimmed, empty tags dropped,
case-insensitive dedup keeping the first occurrence's casing and the original
order, joined with `", "` — and on the spec's concrete example
`["Art", "art", " Fantasy "]` the stored string is `"Art, Fantasy"`. -/
theorem upsert_image_tag_normalization (tags : List String) :
    normalizeTagsDb tags = specNormalizeTags tags ∧
    normalizeTagsDb ["Art", "art", " Fantasy "] = "Art, Fantasy" := by
  refine ⟨?_, by decide⟩
  unfold normalizeTagsDb specNormalizeTags
  cases tags with
  | nil => simp [List.isEmpty, specDedupCaseless, pyJoin]
  | cons t ts =>
    rw [if_neg (show ¬((t :: ts).isEmpty = true) by simp)]
    rw [normalizeTagsLoop_eq (t :: ts) []]
    rw [List.filter_eq_self.mpr (by intro x hx; simp)]

/-! ## Claim C10: `sanitize_filename` -/

/-- The claim's trimming property: the string neither starts nor ends with a
dot or a whitespace character. -/
def strippedAtBounds (s : String) : Bool :=
  s.data.head?.all (fun c => !(isPySpace c || c = '.')) &&
  s.data.getLast?.all (fun c => !(isPySpace c || c = '.'))

/-- C10 counterexample: `sanitize_filename ". ."` evaluates to the single
space `" "`, whose leading and trailing whitespace is NOT trimmed (the source
strips whitespace and dots once, before collapsing, so a space exposed by
dot-stripping survives); moreover a 121-character fallback is returned
truncated, not verbatim. -/
theorem sanitize_filename_claim_counterexample :
    strippedAtBounds (sanitize_filename ". ." "deviation") = false ∧
    sanitize_filename "" ⟨List.replicate 121 'a'⟩ ≠ (⟨List.replicate 121 'a'⟩ : String) := by
  constructor
  · decide
  · decide

/-- C10 (amended): `sanitize_filename` is a total function whose result is
the first 120 characters of the cleaned name — invalid characters replaced by
`'_'`, leading/trailing whitespace and then dots stripped once *before*
whitespace collapsing (so a space exposed by dot-stripping may remain at the
ends, though never a dot) — or of the caller-supplied fallback when the
cleaned name is empty; the cleaned name contains no invalid character and no
uncollapsed whitespace run, and the result has length at most 120. -/
theorem sanitize_filename_amended (name fallback : String) :
    (sanitize_filename name fallback).length ≤ 120 ∧
    sanitize_filename name fallback =
      ⟨(if sanitizeCleaned name = "" then fallback else sanitizeCleaned name).data.take 120⟩ ∧
    (sanitizeCleaned name).data.all (fun c => !isInvalidFileChar c) = true ∧
    noWsRun (sanitizeCleaned name).data = true ∧
    (sanitizeCleaned name).data.head?.all (fun c => !(c = '.')) = true ∧
    (sanitizeCleaned name).data.getLast?.all (fun c => !(c = '.')) = true := by
  refine ⟨?_, rfl, ?_, ?_, ?_, ?_⟩
  · show ((if sanitizeCleaned name = "" then fallback else sanitizeCleaned name).data.take 120).length ≤ 120
    rw [List.length_take]
    exact min_le_left _ _
  · show (collapseWs (pyStripListWith (· = '.')
      (pyStripListWith isPySpace (replaceInvalidChars name.data)))).all _ = true
    apply collapseWs_all _ (by decide)
    rw [List.all_eq_true]
    intro x hx
    have hx2 : x ∈ replaceInvalidChars name.data :=
      (pyStripListWith_sublist _ _).subset
        ((pyStripListWith_sublist _ _).subset hx)
    rcases List.mem_map.mp hx2 with ⟨c, _, hc⟩
    by_cases hinv : isInvalidFileChar c = true
    · rw [← hc]; simp only [hinv, if_true]; decide
    · rw [← hc, if_neg hinv]
      simp only [Bool.not_eq_true] at hinv
      simp [hinv]
  · exact noWsRun_collapseWs _
  · show ((collapseWs (pyStripListWith (· = '.')
      (pyStripListWith isPySpace (replaceInvalidChars name.data)))).head?).all _ = true
    rw [collapseWs_head?]
    have h := pyStripListWith_head_all (· = '.')
      (pyStripListWith isPySpace (replaceInvalidChars name.data))
    cases hh : (pyStripListWith (· = '.')
        (pyStripListWith isPySpace (replaceInvalidChars name.data))).head? with
    | none => simp
    | some c =>
      rw [hh] at h
      simp only [Option.all_some] at h
      simp only [Option.map_some', Option.all_some]
      by_cases hws : isPySpace c = true
      · rw [if_pos hws]; decide
      · rw [if_neg hws]; exact h
  · show ((collapseWs (pyStripListWith (· = '.')
      (pyStripListWith isPySpace (replaceInvalidChars name.data)))).getLast?).all _ = true
    rw [collapseWs_getLast?]
    have h := pyStripListWith_getLast_all (· = '.')
      (pyStripListWith isPySpace (replaceInvalidChars name.data))
    cases hh : (pyStripListWith (· = '.')
        (pyStripListWith isPySpace (replaceInvalidChars name.data))).getLast? with
    | none => simp
    | some c =>
      rw [hh] at h
      simp only [Option.all_some] at h
      simp only [Option.map_some', Option.all_some]
      by_cases hws : isPySpace c = true
      · rw [if_pos hws]; decide
      · rw [if_neg hws]; exact h

/-! ## Filesystem model

Files are modelled as entries holding an absolute path (component list), a
byte content and an mtime; directories are implicit.  Timestamps are not
computed from a clock: files written by the model get mtime `0` unless the
entry says otherwise (no claim depends on mtime values). -/

structure FileEntry where
  path : List String
  content : List Nat
  mtime : Nat
deriving DecidableEq

/-- A filesystem: list of file entries (paths meant to be distinct). -/
abbrev Fs := List FileEntry

/-- `Path.exists()` ∘ lookup. -/
def getFile (fs : Fs) (p : List String) : Option FileEntry :=
  fs.find? (fun e => e.path = p)

def fileExists (fs : Fs) (p : List String) : Bool :=
  (getFile fs p).isSome

/-- Create or truncate-and-rewrite the file at `p` (`open("wb")` + writes,
or the target of a `replace`). -/
def setFile (fs : Fs) (p : List String) (content : List Nat) (mtime : Nat) : Fs :=
  if fileExists fs p then
    fs.map (fun e => if e.path = p then ⟨p, content, mtime⟩ else e)
  else fs ++ [⟨p, content, mtime⟩]

/-- `unlink(missing_ok=True)`. -/
def removeFile (fs : Fs) (p : List String) : Fs :=
  fs.filter (fun e => !(e.path = p))

theorem find?_map_of_agree {α : Type} (f : α → α) (pr : α → Bool)
    (h1 : ∀ e, pr (f e) = pr e) (h2 : ∀ e, pr e = true → f e = e) :
    ∀ l : List α, (l.map f).find? pr = l.find? pr
  | [] => rfl
  | a :: t => by
    rw [List.map_cons]
    by_cases hp : pr a = true
    · rw [List.find?_cons_of_pos _ (by rw [h1]; exact hp),
        List.find?_cons_of_pos _ hp, h2 a hp]
    · rw [List.find?_cons_of_neg _ (by rw [h1]; exact hp),
        List.find?_cons_of_neg _ hp]
      exact find?_map_of_agree f pr h1 h2 t

theorem find?_append_single {α : Type} (pr : α → Bool) (a : α) (ha : pr a = false) :
    ∀ l : List α, (l ++ [a]).find? pr = l.find? pr
  | [] => by simp [List.find?, ha]
  | b :: t => by
    rw [List.cons_append]
    by_cases hb : pr b = true
    · rw [List.find?_cons_of_pos _ hb, List.find?_cons_of_pos _ hb]
    · rw [List.find?_cons_of_neg _ hb, List.find?_cons_of_neg _ hb]
      exact find?_append_single pr a ha t

theorem find?_append_single_pos {α : Type} (pr : α → Bool) (a : α) (ha : pr a = true) :
    ∀ l : List α, l.find? pr = none → (l ++ [a]).find? pr = some a
  | [], _ => by simp [List.find?, ha]
  | b :: t, h => by
    rw [List.cons_append]
    by_cases hb : pr b = true
    · rw [List.find?_cons_of_pos _ hb] at h; exact absurd h (by simp)
    · rw [List.find?_cons_of_neg _ hb] at h
      rw [List.find?_cons_of_neg _ hb]
      exact find?_append_single_pos pr a ha t h

theorem getFile_setFile_self (fs : Fs) (p : List String) (c : List Nat) (m : Nat) :
    getFile (setFile fs p c m) p = some ⟨p, c, m⟩ := by
  unfold setFile
  by_cases h : fileExists fs p = true
  · rw [if_pos h]
    unfold fileExists getFile at h
    rcases Option.isSome_iff_exists.mp h with ⟨e, he⟩
    have hep : e.path = p := by
      have := List.find?_some he
      simpa using this
    unfold getFile
    -- find the first entry with path `p`; it is mapped to the new entry
    clear h
    induction fs with
    | nil => simp [List.find?] at he
    | cons b t ih =>
      rw [List.map_cons]
      by_cases hb : b.path = p
      · rw [if_pos hb]
        exact List.find?_cons_of_pos _ (by simp)
      · rw [if_neg hb]
        rw [List.find?_cons_of_neg _ (by simpa using hb)] at he
        rw [List.find?_cons_of_neg _ (by simpa using hb)]
        exact ih he
  · rw [if_neg h]
    unfold fileExists at h
    have hnone : getFile fs p = none := by
      cases hg : getFile fs p with
      | none => rfl
      | some e => rw [hg] at h; simp at h
    unfold getFile at hnone ⊢
    exact find?_append_single_pos _ _ (by simp) fs hnone

theorem getFile_setFile_ne (fs : Fs) (p q : List String) (c : List Nat) (m : Nat)
    (h : q ≠ p) : getFile (setFile fs p c m) q = getFile fs q := by
  unfold setFile
  by_cases hex : fileExists fs p = true
  · rw [if_pos hex]
    unfold getFile
    apply find?_map_of_agree
    · intro e
      by_cases hep : e.path = p
      · rw [if_pos hep, hep]
      · rw [if_neg hep]
    · intro e hq
      have heq : e.path = q := by simpa using hq
      rw [if_neg (by rw [heq]; exact h)]
  · rw [if_neg hex]
    unfold getFile
    exact find?_append_single _ _ (by simpa using Ne.symm h) fs

theorem getFile_removeFile_self (fs : Fs) (p : List String) :
    getFile (removeFile fs p) p = none := by
  unfold removeFile getFile
  rw [List.find?_filter]
  induction fs with
  | nil => rfl
  | cons b t ih =>
    by_cases hb : b.path = p
    · rw [List.find?_cons_of_neg _ (by simp [hb])]
      exact ih
    · rw [List.find?_cons_of_neg _ (by simp [hb])]
      exact ih

theorem getFile_removeFile_ne (fs : Fs) (p q : List String) (h : q ≠ p) :
    getFile (removeFile fs p) q = getFile fs q := by
  unfold removeFile getFile
  induction fs with
  | nil => rfl
  | cons b t ih =>
    by_cases hb : b.path = p
    · rw [List.filter_cons_of_neg (by simp [hb])]
      rw [List.find?_cons_of_neg _
        (by simp only [decide_eq_true_eq]; rw [hb]; exact Ne.symm h)]
      exact ih
    · rw [List.filter_cons_of_pos (by simp [hb])]
      by_cases hq : b.path = q
      · rw [List.find?_cons_of_pos _ (by simpa using hq),
          List.find?_cons_of_pos _ (by simpa using hq)]
      · rw [List.find?_cons_of_neg _ (by simpa using hq),
          List.find?_cons_of_neg _ (by simpa using hq)]
        exact ih

theorem fileExists_setFile_self (fs : Fs) (p : List String) (c : List Nat) (m : Nat) :
    fileExists (setFile fs p c m) p = true := by
  unfold fileExists
  rw [getFile_setFile_self]
  rfl

theorem fileExists_setFile_ne (fs : Fs) (p q : List String) (c : List Nat) (m : Nat)
    (h : q ≠ p) : fileExists (setFile fs p c m) q = fileExists fs q := by
  unfold fileExists
  rw [getFile_setFile_ne fs p q c m h]

theorem fileExists_removeFile_self (fs : Fs) (p : List String) :
    fileExists (removeFile fs p) p = false := by
  unfold fileExists
  rw [getFile_removeFile_self]
  rfl

theorem fileExists_removeFile_ne (fs : Fs) (p q : List String) (h : q ≠ p) :
    fileExists (removeFile fs p) q = fileExists fs q := by
  unfold fileExists
  rw [getFile_removeFile_ne fs p q h]

/-! ## `api.DeviantArtClient.download_file` -/

/-- `destination.with_suffix(destination.suffix + ".part")`: for any name this
is the same directory with `".part"` appended to the file name. -/
def tmpPath (dest : List String) : List String :=
  dest.dropLast ++ [(dest.getLast?.getD "") ++ ".part"]

theorem tmpPath_ne (dest : List String) : tmpPath dest ≠ dest := by
  intro h
  cases hd : dest.getLast? with
  | none =>
    have hnil : dest = [] := List.getLast?_eq_none_iff.mp hd
    subst hnil
    simp only [tmpPath, List.dropLast_nil, List.nil_append] at h
    exact List.cons_ne_nil _ _ h
  | some a =>
    have h2 : (tmpPath dest).getLast? = dest.getLast? := by rw [h]
    unfold tmpPath at h2
    rw [List.getLast?_append_of_ne_nil _ (by simp), List.getLast?_singleton, hd] at h2
    have h3 : a ++ ".part" = a := by simpa using h2
    have h4 : a.length + ".part".length = a.length := by
      rw [← String.length_append, h3]
    have h5 : ".part".length = 5 := by decide
    omega

/-- The network response for one streamed GET: `.error` if the request or
`raise_for_status` fails before any body is read; otherwise the list of body
chunks followed by an optional mid-stream transport error. -/
abbrev DlResp := Except Unit (List (List Nat) × Option Unit)

/-- The outcome of `download_file`: the returned value or re-raised
exception, the final filesystem, the ghost trace of filesystem states (first
element = initial state, last = final state), and the ghost count of network
requests issued. -/
structure DlOutcome where
  result : Except Unit Bool
  fs : Fs
  trace : List Fs
  netCalls : Nat

/-- Intermediate filesystem states while the chunk loop writes to `tmp`
(empty chunks are skipped, as in `if chunk:`). -/
def writeStates (fs : Fs) (tmp : List String) : List (List Nat) → List Nat → List Fs
  | [], _ => []
  | ch :: rest, written =>
    if ch = [] then writeStates fs tmp rest written
    else setFile fs tmp (written ++ ch) 0 :: writeStates fs tmp rest (written ++ ch)

/-- `DeviantArtClient.download_file(url, destination)`: existing destination
is an immediate `False`; otherwise the body is streamed into
`<dest>.part` and the temp file is renamed onto the destination on full
success, while any exception deletes the temp file and is re-raised. -/
def download_file (fs : Fs) (dest : List String) (resp : DlResp) : DlOutcome :=
  if fileExists fs dest then ⟨.ok false, fs, [fs], 0⟩
  else
    let tmp := tmpPath dest
    match resp with
    | .error e =>
      let fs1 := removeFile fs tmp
      ⟨.error e, fs1, [fs, fs1], 1⟩
    | .ok (chunks, merr) =>
      let opened := setFile fs tmp [] 0
      let states := opened :: writeStates opened tmp chunks []
      let lastFs := (writeStates opened tmp chunks []).getLastD opened
      match merr with
      | some e =>
        let fs1 := removeFile lastFs tmp
        ⟨.error e, fs1, (fs :: states) ++ [fs1], 1⟩
      | none =>
        let body := ((getFile lastFs tmp).map FileEntry.content).getD []
        let fs1 := setFile (removeFile lastFs tmp) dest body 0
        ⟨.ok true, fs1, (fs :: states) ++ [fs1], 1⟩

theorem writeStates_getLastD (fs : Fs) (tmp : List String) :
    ∀ (chunks : List (List Nat)) (written : List Nat),
      (writeStates fs tmp chunks written).getLastD (setFile fs tmp written 0) =
        setFile fs tmp (written ++ chunks.flatten) 0
  | [], written => by simp [writeStates]
  | ch :: rest, written => by
    rw [writeStates]
    by_cases hch : ch = []
    · rw [if_pos hch, writeStates_getLastD fs tmp rest written, hch]
      simp
    · rw [if_neg hch, List.getLastD_cons,
        writeStates_getLastD fs tmp rest (written ++ ch)]
      simp [List.flatten_cons, List.append_assoc]

theorem writeStates_mem (fs : Fs) (tmp : List String) :
    ∀ (chunks : List (List Nat)) (written : List Nat),
      ∀ st ∈ writeStates fs tmp chunks written, ∃ w, st = setFile fs tmp w 0
  | [], _, st, h => by simp [writeStates] at h
  | ch :: rest, written, st, h => by
    rw [writeStates] at h
    by_cases hch : ch = []
    · rw [if_pos hch] at h
      exact writeStates_mem fs tmp rest written st h
    · rw [if_neg hch] at h
      rcases List.mem_cons.mp h with h | h
      · exact ⟨written ++ ch, h⟩
      · exact writeStates_mem fs tmp rest (written ++ ch) st h

theorem download_file_ok_true_exists (fs0 : Fs) (dest : List String) (resp : DlResp)
    (h : (download_file fs0 dest resp).result = .ok true) :
    fileExists (download_file fs0 dest resp).fs dest = true := by
  unfold download_file at h ⊢
  by_cases h0 : fileExists fs0 dest = true
  · rw [if_pos h0] at h
    simp at h
  · rw [if_neg h0] at h ⊢
    rcases resp with e | ⟨chunks, merr⟩
    · simp at h
    · rcases merr with _ | e
      · dsimp only
        exact fileExists_setFile_self _ _ _ _
      · simp at h

/-- C3: when the destination already exists, `download_file` returns `False`,
issues no network request and leaves the filesystem untouched; consequently,
of two successive calls for the same destination where the first succeeds,
the second is a no-op returning `False` with no network transfer. -/
theorem download_file_idempotent (fs : Fs) (dest : List String) (resp resp2 : DlResp)
    (h : fileExists fs dest = true) :
    download_file fs dest resp = ⟨.ok false, fs, [fs], 0⟩ ∧
    (∀ fs0 : Fs, (download_file fs0 dest resp2).result = .ok true →
        download_file (download_file fs0 dest resp2).fs dest resp =
          ⟨.ok false, (download_file fs0 dest resp2).fs,
            [(download_file fs0 dest resp2).fs], 0⟩) := by
  constructor
  · unfold download_file
    rw [if_pos h]
  · intro fs0 hok
    have hex := download_file_ok_true_exists fs0 dest resp2 hok
    generalize hX : (download_file fs0 dest resp2).fs = X at hex ⊢
    unfold download_file
    rw [if_pos hex]

/-- C3 witness: a concrete destination already on disk is not re-downloaded,
and a successful fresh download makes the follow-up call a no-op. -/
theorem download_file_idempotent_witness :
    download_file [⟨["downloads", "u", "a.jpg"], [7], 0⟩] ["downloads", "u", "a.jpg"]
        (.ok ([[1]], none)) =
      ⟨.ok false, [⟨["downloads", "u", "a.jpg"], [7], 0⟩],
        [[⟨["downloads", "u", "a.jpg"], [7], 0⟩]], 0⟩ ∧
    (∀ fs0 : Fs,
      (download_file fs0 ["downloads", "u", "a.jpg"] (.ok ([[2]], none))).result = .ok true →
        download_file (download_file fs0 ["downloads", "u", "a.jpg"] (.ok ([[2]], none))).fs
            ["downloads", "u", "a.jpg"] (.ok ([[1]], none)) =
          ⟨.ok false,
            (download_file fs0 ["downloads", "u", "a.jpg"] (.ok ([[2]], none))).fs,
            [(download_file fs0 ["downloads", "u", "a.jpg"] (.ok ([[2]], none))).fs], 0⟩) :=
  download_file_idempotent _ _ _ _ (by decide)

theorem writeStates_eq_nil_flatten (fs : Fs) (tmp : List String) :
    ∀ (chunks : List (List Nat)) (written : List Nat),
      writeStates fs tmp chunks written = [] → chunks.flatten = []
  | [], _, _ => rfl
  | ch :: rest, written, h => by
    rw [writeStates] at h
    by_cases hch : ch = []
    · rw [if_pos hch] at h
      rw [List.flatten_cons, hch, List.nil_append]
      exact writeStates_eq_nil_flatten fs tmp rest written h
    · rw [if_neg hch] at h
      exact absurd h (by simp)

theorem getLastD_default_irrel {α : Type} (l : List α) (d d' : α) (h : l ≠ []) :
    l.getLastD d = l.getLastD d' := by
  rw [List.getLastD_eq_getLast?, List.getLastD_eq_getLast?]
  cases hg : l.getLast? with
  | none => exact absurd (List.getLast?_eq_none_iff.mp hg) h
  | some a => rfl

/-- The state after the chunk loop holds the full body in the temp file. -/
theorem lastFs_spec (fs0 : Fs) (dest : List String) (chunks : List (List Nat)) :
    getFile ((writeStates (setFile fs0 (tmpPath dest) [] 0) (tmpPath dest) chunks []).getLastD
        (setFile fs0 (tmpPath dest) [] 0)) (tmpPath dest) =
      some ⟨tmpPath dest, chunks.flatten, 0⟩ ∧
    (∀ p, p ≠ tmpPath dest →
      getFile ((writeStates (setFile fs0 (tmpPath dest) [] 0) (tmpPath dest) chunks []).getLastD
          (setFile fs0 (tmpPath dest) [] 0)) p = getFile fs0 p) := by
  set tmp := tmpPath dest with htmp
  set opened := setFile fs0 tmp [] 0 with hopened
  by_cases hws : writeStates opened tmp chunks [] = []
  · rw [hws]
    have hfl : chunks.flatten = [] := writeStates_eq_nil_flatten opened tmp chunks [] hws
    rw [hfl]
    constructor
    · rw [List.getLastD_nil, hopened]
      exact getFile_setFile_self _ _ _ _
    · intro p hp
      rw [List.getLastD_nil, hopened]
      exact getFile_setFile_ne _ _ _ _ _ hp
  · rw [getLastD_default_irrel _ _ (setFile opened tmp [] 0) hws,
      writeStates_getLastD opened tmp chunks []]
    constructor
    · rw [List.nil_append]
      exact getFile_setFile_self _ _ _ _
    · intro p hp
      rw [getFile_setFile_ne _ _ _ _ _ hp, hopened]
      exact getFile_setFile_ne _ _ _ _ _ hp

/-- C4: for a destination that does not yet exist, `download_file` only ever
writes to the sibling temp file `<dest>.part` before its final step, so no
state before completion shows a file at the destination; on a full body the
temp file is renamed to the destination (which then holds exactly the
concatenated body) and the call returns `True`; any failure deletes the
partial temp file, re-raises, and leaves nothing at the destination. -/
theorem download_file_atomic (fs : Fs) (dest : List String) (resp : DlResp)
    (h : fileExists fs dest = false) :
    (∀ st ∈ (download_file fs dest resp).trace.dropLast,
       (∀ p, p ≠ tmpPath dest → getFile st p = getFile fs p) ∧
       fileExists st dest = false) ∧
    (∀ chunks, resp = .ok (chunks, none) →
       (download_file fs dest resp).result = .ok true ∧
       getFile (download_file fs dest resp).fs dest = some ⟨dest, chunks.flatten, 0⟩ ∧
       fileExists (download_file fs dest resp).fs (tmpPath dest) = false) ∧
    (∀ e, resp = .error e →
       (download_file fs dest resp).result = .error e ∧
       fileExists (download_file fs dest resp).fs (tmpPath dest) = false ∧
       fileExists (download_file fs dest resp).fs dest = false) ∧
    (∀ chunks e, resp = .ok (chunks, some e) →
       (download_file fs dest resp).result = .error e ∧
       fileExists (download_file fs dest resp).fs (tmpPath dest) = false ∧
       fileExists (download_file fs dest resp).fs dest = false) := by
  have hne : dest ≠ tmpPath dest := fun he => tmpPath_ne dest he.symm
  unfold download_file
  rw [if_neg (by simp [h])]
  rcases resp with e | ⟨chunks, merr⟩
  · dsimp only
    refine ⟨?_, ?_, ?_, ?_⟩
    · intro st hst
      have hdl : ([fs, removeFile fs (tmpPath dest)] : List Fs).dropLast = [fs] := rfl
      rw [hdl] at hst
      rcases List.mem_singleton.mp hst with rfl
      exact ⟨fun p _ => rfl, h⟩
    · intro chunks hc
      exact Except.noConfusion hc
    · intro e' _
      cases e
      refine ⟨rfl, fileExists_removeFile_self _ _, ?_⟩
      rw [fileExists_removeFile_ne _ _ _ hne]
      exact h
    · intro chunks e' hc
      exact Except.noConfusion hc
  · have hspec := lastFs_spec fs dest chunks
    rcases merr with _ | e
    · dsimp only
      refine ⟨?_, ?_, ?_, ?_⟩
      · intro st hst
        rw [List.dropLast_concat] at hst
        rcases List.mem_cons.mp hst with rfl | hst
        · exact ⟨fun p _ => rfl, h⟩
        rcases List.mem_cons.mp hst with rfl | hst
        · refine ⟨fun p hp => getFile_setFile_ne _ _ _ _ _ hp, ?_⟩
          rw [fileExists_setFile_ne _ _ _ _ _ hne]
          exact h
        · rcases writeStates_mem _ _ _ _ st hst with ⟨w, rfl⟩
          refine ⟨fun p hp => ?_, ?_⟩
          · rw [getFile_setFile_ne _ _ _ _ _ hp]
            exact getFile_setFile_ne _ _ _ _ _ hp
          · rw [fileExists_setFile_ne _ _ _ _ _ hne, fileExists_setFile_ne _ _ _ _ _ hne]
            exact h
      · intro chunks' hc
        injection hc with h1
        injection h1 with h2 h3
        subst h2
        refine ⟨rfl, ?_, ?_⟩
        · rw [getFile_setFile_self, hspec.1]
          rfl
        · rw [fileExists_setFile_ne _ _ _ _ _ (tmpPath_ne dest),
            fileExists_removeFile_self]
      · intro e hc
        exact Except.noConfusion hc
      · intro chunks' e hc
        injection hc with h1
        injection h1 with h2 h3
        exact Option.noConfusion h3
    · dsimp only
      refine ⟨?_, ?_, ?_, ?_⟩
      · intro st hst
        rw [List.dropLast_concat] at hst
        rcases List.mem_cons.mp hst with rfl | hst
        · exact ⟨fun p _ => rfl, h⟩
        rcases List.mem_cons.mp hst with rfl | hst
        · refine ⟨fun p hp => getFile_setFile_ne _ _ _ _ _ hp, ?_⟩
          rw [fileExists_setFile_ne _ _ _ _ _ hne]
          exact h
        · rcases writeStates_mem _ _ _ _ st hst with ⟨w, rfl⟩
          refine ⟨fun p hp => ?_, ?_⟩
          · rw [getFile_setFile_ne _ _ _ _ _ hp]
            exact getFile_setFile_ne _ _ _ _ _ hp
          · rw [fileExists_setFile_ne _ _ _ _ _ hne, fileExists_setFile_ne _ _ _ _ _ hne]
            exact h
      · intro chunks' hc
        injection hc with h1
        injection h1 with h2 h3
        exact Option.noConfusion h3
      · intro e' hc
        exact Except.noConfusion hc
      · intro chunks' e' hc
        injection hc with h1
        injection h1 with h2 h3
        subst h2
        cases e
        refine ⟨rfl, fileExists_removeFile_self _ _, ?_⟩
        unfold fileExists
        rw [getFile_removeFile_ne _ _ _ hne, hspec.2 dest hne]
        exact h

/-- C4 witness: a concrete two-chunk download lands the full body at the
destination with no leftover temp file. -/
theorem download_file_atomic_witness :
    (download_file [] ["downloads", "u", "a.jpg"] (.ok ([[1], [2]], none))).result = .ok true ∧
    getFile (download_file [] ["downloads", "u", "a.jpg"] (.ok ([[1], [2]], none))).fs
        ["downloads", "u", "a.jpg"] =
      some ⟨["downloads", "u", "a.jpg"], [1, 2], 0⟩ ∧
    fileExists (download_file [] ["downloads", "u", "a.jpg"] (.ok ([[1], [2]], none))).fs
        (tmpPath ["downloads", "u", "a.jpg"]) = false := by
  have hw := (download_file_atomic [] ["downloads", "u", "a.jpg"]
    (.ok ([[1], [2]], none)) (by decide)).2.1 [[1], [2]] rfl
  exact hw

/-! ## Database model (`database.WatcherDatabase`)

Tables are lists of rows with explicit AUTOINCREMENT counters; the
`created_at`/`updated_at` timestamp columns are omitted (no claim mentions
them).  `username` comparisons are case-insensitive (`COLLATE NOCASE`,
ASCII fragment). -/

/-- Row of `seen_deviations`. -/
structure SeenRow where
  id : Nat
  artist_id : Nat
  deviation_id : String
  seeded : Bool
deriving DecidableEq

/-- Row of `images`. -/
structure ImageRow where
  artist_id : Nat
  deviation_id : String
  relative_path : String
  image_title : String
  tags : String
  is_favorite : Bool
  file_size : Nat
  mtime : Nat
deriving DecidableEq

structure DbState where
  artists : List (Nat × String)
  nextArtistId : Nat
  seen : List SeenRow
  nextSeenId : Nat
  images : List ImageRow
deriving DecidableEq

/-- `COLLATE NOCASE` comparison key. -/
def usernameKey (u : String) : String := pyLower u

/-- `WatcherDatabase._get_artist_id`. -/
def _get_artist_id (db : DbState) (u : String) : Option Nat :=
  (db.artists.find? (fun a => usernameKey a.2 = usernameKey u)).map (·.1)

/-- `WatcherDatabase._get_or_create_artist_id`. -/
def _get_or_create_artist_id (db : DbState) (u : String) : DbState × Nat :=
  match _get_artist_id db u with
  | some a => (db, a)
  | none =>
    ({ db with
        artists := db.artists ++ [(db.nextArtistId, u)],
        nextArtistId := db.nextArtistId + 1 },
      db.nextArtistId)

/-- `WatcherDatabase.get_seen_ids` (a Python set; modelled as the list of
matching rows' ids, queried by membership). -/
def get_seen_ids (db : DbState) (u : String) : List String :=
  match _get_artist_id db u with
  | none => []
  | some a => (db.seen.filter (fun r => r.artist_id = a)).map (·.deviation_id)

/-- `WatcherDatabase.get_seeded_ids`. -/
def get_seeded_ids (db : DbState) (u : String) : List String :=
  match _get_artist_id db u with
  | none => []
  | some a =>
    (db.seen.filter (fun r => r.artist_id = a && r.seeded)).map (·.deviation_id)

/-- `WatcherDatabase.upsert_seen`: insert, or update `seeded` in place on the
`(artist_id, deviation_id)` conflict (row id and position preserved). -/
def upsert_seen (db : DbState) (u : String) (dev : String) (seeded : Bool) : DbState :=
  let dba := _get_or_create_artist_id db u
  let db1 := dba.1
  let a := dba.2
  if db1.seen.any (fun r => decide (r.artist_id = a) && decide (r.deviation_id = dev)) then
    { db1 with
        seen := db1.seen.map (fun r =>
          if decide (r.artist_id = a) && decide (r.deviation_id = dev) then
            { r with seeded := seeded }
          else r) }
  else
    { db1 with
        seen := db1.seen ++ [⟨db1.nextSeenId, a, dev, seeded⟩],
        nextSeenId := db1.nextSeenId + 1 }

/-- `WatcherDatabase.remove_seen_ids`. -/
def remove_seen_ids (db : DbState) (u : String) (deviation_ids : List String) : DbState :=
  let ids := (deviation_ids.map pyStrip).filter (fun s => s ≠ "")
  if ids = [] then db
  else
    match _get_artist_id db u with
    | none => db
    | some a =>
      { db with
          seen := db.seen.filter (fun r => !(r.artist_id = a && r.deviation_id ∈ ids)) }

/-- Insertion sort, descending (`ORDER BY id DESC`). -/
def insertDesc (x : Nat) : List Nat → List Nat
  | [] => [x]
  | y :: ys => if y ≤ x then x :: y :: ys else y :: insertDesc x ys

def sortDesc : List Nat → List Nat
  | [] => []
  | x :: xs => insertDesc x (sortDesc xs)

/-- `WatcherDatabase.trim_seen`: a no-op for `max_seen < 1`; otherwise keeps,
for the account, only the rows whose id is among the `max_seen` largest. -/
def trim_seen (db : DbState) (u : String) (max_seen : Int) : DbState :=
  if max_seen < 1 then db
  else
    match _get_artist_id db u with
    | none => db
    | some a =>
      let kept := (sortDesc ((db.seen.filter (fun r => r.artist_id = a)).map (·.id))).take
        max_seen.toNat
      { db with
          seen := db.seen.filter (fun r => !(r.artist_id = a && !(r.id ∈ kept))) }

/-- Python `Path.suffix`: last-dot suffix of a file name
(`0 < i < len(name) - 1`). -/
def rfindChar (s : String) (c : Char) : Option Nat :=
  (s.data.reverse.indexOf? c).map (fun j => s.data.length - 1 - j)

def pathSuffix (name : String) : String :=
  match rfindChar name '.' with
  | some i => if 0 < i ∧ i < name.data.length - 1 then ⟨name.data.drop i⟩ else ""
  | none => ""

/-- Python `Path.stem`. -/
def pathStem (name : String) : String :=
  match rfindChar name '.' with
  | some i => if 0 < i ∧ i < name.data.length - 1 then ⟨name.data.take i⟩ else name
  | none => name

/-- `file_path.relative_to(output_dir).as_posix()` for a `file_path` under
`output_dir` (the only way the watcher calls it). -/
def relPathStr (output_dir file_path : List String) : String :=
  pyJoin "/" (file_path.drop output_dir.length)

/-- `WatcherDatabase.upsert_image` (the tags are normalized via
`_normalize_tags`; the favorite flag of an existing row is preserved). -/
def upsert_image (db : DbState) (u : String) (dev : String)
    (file_path : List String) (output_dir : List String) (fs : Fs)
    (image_title : String) (tags : List String) : DbState :=
  match getFile fs file_path with
  | none => db
  | some entry =>
    let relative_path := relPathStr output_dir file_path
    let name := file_path.getLast?.getD ""
    let stem := pathStem name
    let fallback_title :=
      match pyFindChar stem '_' with
      | some i => if 0 < i then (⟨stem.data.drop (i + 1)⟩ : String) else stem
      | none => stem
    let clean_title := pyStrip image_title
    let title_to_store := pyOrStr clean_title fallback_title
    let tags_to_store := normalizeTagsDb tags
    let dba := _get_or_create_artist_id db u
    let db1 := dba.1
    let a := dba.2
    if db1.images.any (fun r => r.relative_path = relative_path) then
      { db1 with
          images := db1.images.map (fun r =>
            if r.relative_path = relative_path then
              { r with
                  artist_id := a, deviation_id := dev,
                  image_title := title_to_store, tags := tags_to_store,
                  file_size := entry.content.length, mtime := entry.mtime }
            else r) }
    else
      { db1 with
          images := db1.images ++
            [⟨a, dev, relative_path, title_to_store, tags_to_store, false,
              entry.content.length, entry.mtime⟩] }

/-! ## `sync_images_from_filesystem` -/

/-- One file discovered by the `rglob` walk. -/
structure DiscEntry where
  relative_path : String
  artist : String
  deviation_id : String
  image_title : String
  size : Nat
  mtime : Nat
deriving DecidableEq

/-- Build the `discovered` payload for one file under the output root. -/
def discEntryOf (output_dir : List String) (e : FileEntry) : DiscEntry :=
  let rel := e.path.drop output_dir.length
  let relative_path := pyJoin "/" rel
  let artist := if rel.length > 1 then rel.head?.getD "" else "ungrouped"
  let name := e.path.getLast?.getD ""
  let deviation_id :=
    match pyFindChar name '_' with
    | some i => if 0 < i then (⟨name.data.take i⟩ : String) else pathStem name
    | none => pathStem name
  let image_title :=
    match pyFindChar name '_' with
    | some i => if 0 < i then (⟨(pathStem name).data.drop (i + 1)⟩ : String) else pathStem name
    | none => pathStem name
  ⟨relative_path, artist, deviation_id, image_title, e.content.length, e.mtime⟩

/-- The files the walk discovers: every file strictly under `output_dir`
whose lower-cased suffix is an allowed image extension. -/
def discoverEntries (fs : Fs) (output_dir : List String) (exts : List String) : List DiscEntry :=
  (fs.filter (fun e =>
      output_dir.isPrefixOf e.path ∧ output_dir.length < e.path.length ∧
      pyLower (pathSuffix (e.path.getLast?.getD "")) ∈ exts)).map
    (discEntryOf output_dir)

/-- The catalog upsert of one discovered file: sticky title/tags (`CASE WHEN
'' THEN excluded ELSE keep END`, with `excluded.tags = ''`), favorite flag
preserved. -/
def syncUpsertOne (db : DbState) (d : DiscEntry) : DbState :=
  let dba := _get_or_create_artist_id db d.artist
  let db1 := dba.1
  let a := dba.2
  if db1.images.any (fun r => r.relative_path = d.relative_path) then
    { db1 with
        images := db1.images.map (fun r =>
          if r.relative_path = d.relative_path then
            { r with
                artist_id := a, deviation_id := d.deviation_id,
                image_title := if r.image_title = "" then d.image_title else r.image_title,
                tags := if r.tags = "" then "" else r.tags,
                file_size := d.size, mtime := d.mtime }
          else r) }
  else
    { db1 with
        images := db1.images ++
          [⟨a, d.deviation_id, d.relative_path, d.image_title, "", false, d.size, d.mtime⟩] }

/-- `WatcherDatabase.sync_images_from_filesystem`: delete catalog rows whose
path vanished from disk, then upsert every discovered file.  Returns the new
state with the `(discovered, deleted_stale)` counters. -/
def sync_images_from_filesystem (db : DbState) (fs : Fs) (output_dir : List String)
    (exts : List String) : DbState × Nat × Nat :=
  let discovered := discoverEntries fs output_dir exts
  let discoveredPaths := discovered.map (·.relative_path)
  let stale := db.images.filter (fun r => r.relative_path ∉ discoveredPaths)
  let db1 := { db with images := db.images.filter (fun r => r.relative_path ∈ discoveredPaths) }
  let db2 := discovered.foldl syncUpsertOne db1
  (db2, discovered.length, stale.length)

/-! ## `delete_image` and path resolution -/

/-- Split a character list on a separator. -/
def splitCharAux (c : Char) : List Char → List Char → List (List Char)
  | [], acc => [acc.reverse]
  | x :: xs, acc =>
    if x = c then acc.reverse :: splitCharAux c xs [] else splitCharAux c xs (x :: acc)

def splitChar (l : List Char) (c : Char) : List (List Char) :=
  splitCharAux c l []

/-- `str(Path(s).as_posix())`: pathlib normalization — collapse repeated
slashes, drop `"."` components, keep `".."`, render the empty relative path
as `"."` and a bare root as `"/"`. -/
def pyPathPosix (s : String) : String :=
  let comps := ((splitChar s.data '/').map (fun l => (⟨l⟩ : String))).filter
    (fun c => c ≠ "" ∧ c ≠ ".")
  let absolute := s.data.head? = some '/'
  if comps = [] then (if absolute then "/" else ".")
  else (if absolute then "/" else "") ++ pyJoin "/" comps

/-- Python `str.lstrip("/")`. -/
def pyLstripSlash (s : String) : String := ⟨s.data.dropWhile (· = '/')⟩

/-- The component list of a cleaned relative path. -/
def pathComps (s : String) : List String :=
  ((splitChar s.data '/').map (fun l => (⟨l⟩ : String))).filter (fun c => c ≠ "")

/-- `Path.resolve()` on components (symlink-free model): drop `"."`, let
`".."` pop the last component (staying put at the root). -/
def resolveComps (l : List String) : List String :=
  l.foldl (fun acc c =>
    if c = "." ∨ c = "" then acc
    else if c = ".." then acc.dropLast
    else acc ++ [c]) []

/-- The result dictionary of `delete_image` (`message = ""` when absent). -/
structure DeleteResult where
  deleted : Bool
  artist : String
  deviation_id : String
  relative_path : String
  message : String
deriving DecidableEq

/-- `WatcherDatabase.delete_image(relative_path, output_dir)`: validates that
the resolved target stays within the output root, then removes the file, the
catalog row and the matching seen record. -/
def delete_image (db : DbState) (fs : Fs) (relative_path : String)
    (output_dir : List String) : DeleteResult × DbState × Fs :=
  let cleaned := pyLstripSlash (pyPathPosix relative_path)
  if cleaned = "" then (⟨false, "", "", "", "relative_path is required."⟩, db, fs)
  else
    let target := resolveComps (output_dir ++ pathComps cleaned)
    let base := resolveComps output_dir
    if ¬(base.isPrefixOf target = true ∧ base ≠ target) ∧ target ≠ base then
      (⟨false, "", "", "", "Invalid relative_path."⟩, db, fs)
    else
      let fileDeleted := fileExists fs target
      let fs1 := if fileExists fs target then removeFile fs target else fs
      let ad := match db.images.find? (fun r => r.relative_path = cleaned) with
        | some r =>
          match db.artists.find? (fun (a : Nat × String) => a.1 = r.artist_id) with
          | some a => (a.2, r.deviation_id)
          | none => ("", "")
        | none => ("", "")
      let db1 := { db with images := db.images.filter (fun r => !(r.relative_path = cleaned)) }
      let db2 :=
        if ad.1 ≠ "" ∧ ad.2 ≠ "" then
          match _get_artist_id db1 ad.1 with
          | some a =>
            { db1 with
                seen := db1.seen.filter (fun r => !(r.artist_id = a && r.deviation_id = ad.2)) }
          | none => db1
        else db1
      (⟨fileDeleted || ad.1 ≠ "", ad.1, ad.2, cleaned, ""⟩, db2, fs1)

/-! ## Claim C7: `delete_image` rejects traversal -/

/-- C7: whenever the resolved target of `relative_path` is not inside the
resolved output root, `delete_image` answers `deleted = false` and leaves
both the database and the filesystem untouched. -/
theorem delete_image_rejects_outside (db : DbState) (fs : Fs) (relative_path : String)
    (output_dir : List String)
    (h : (resolveComps output_dir).isPrefixOf
        (resolveComps (output_dir ++ pathComps (pyLstripSlash (pyPathPosix relative_path)))) =
      false) :
    (delete_image db fs relative_path output_dir).1.deleted = false ∧
    (delete_image db fs relative_path output_dir).2.1 = db ∧
    (delete_image db fs relative_path output_dir).2.2 = fs := by
  unfold delete_image
  by_cases hc : pyLstripSlash (pyPathPosix relative_path) = ""
  · rw [if_pos hc]
    exact ⟨rfl, rfl, rfl⟩
  · rw [if_neg hc]
    have hne : resolveComps (output_dir ++ pathComps (pyLstripSlash (pyPathPosix relative_path))) ≠
        resolveComps output_dir := by
      intro he
      rw [he] at h
      have htrue : (resolveComps output_dir).isPrefixOf (resolveComps output_dir) = true :=
        List.isPrefixOf_iff_prefix.mpr (List.prefix_refl _)
      rw [htrue] at h
      exact absurd h (by simp)
    rw [if_pos ⟨fun hcontra => by rw [h] at hcontra; exact Bool.false_ne_true hcontra.1, hne⟩]
    exact ⟨rfl, rfl, rfl⟩

/-- C7 witness: deleting `"../evil.jpg"` from a populated store is rejected
without touching anything. -/
theorem delete_image_rejects_outside_witness :
    (resolveComps ["data", "out"]).isPrefixOf
        (resolveComps (["data", "out"] ++
          pathComps (pyLstripSlash (pyPathPosix "../evil.jpg")))) = false ∧
    (delete_image
        ⟨[(0, "u")], 1, [⟨0, 0, "d1", false⟩], 1, [⟨0, "d1", "u/d1_t.jpg", "t", "", false, 3, 5⟩]⟩
        [⟨["data", "out", "u", "d1_t.jpg"], [9], 5⟩] "../evil.jpg" ["data", "out"]).1.deleted =
      false ∧
    (delete_image
        ⟨[(0, "u")], 1, [⟨0, 0, "d1", false⟩], 1, [⟨0, "d1", "u/d1_t.jpg", "t", "", false, 3, 5⟩]⟩
        [⟨["data", "out", "u", "d1_t.jpg"], [9], 5⟩] "../evil.jpg" ["data", "out"]).2.1 =
      ⟨[(0, "u")], 1, [⟨0, 0, "d1", false⟩], 1, [⟨0, "d1", "u/d1_t.jpg", "t", "", false, 3, 5⟩]⟩ ∧
    (delete_image
        ⟨[(0, "u")], 1, [⟨0, 0, "d1", false⟩], 1, [⟨0, "d1", "u/d1_t.jpg", "t", "", false, 3, 5⟩]⟩
        [⟨["data", "out", "u", "d1_t.jpg"], [9], 5⟩] "../evil.jpg" ["data", "out"]).2.2 =
      [⟨["data", "out", "u", "d1_t.jpg"], [9], 5⟩] := by
  refine ⟨by decide, ?_⟩
  exact delete_image_rejects_outside _ _ _ _ (by decide)

/-! ## Claim C6: `trim_seen` -/

/-- A one-row store used to refute the `N = 0` case of the trim claim. -/
def dbOneSeen : DbState :=
  ⟨[(0, "u")], 1, [⟨0, 0, "d1", false⟩], 1, []⟩

/-- C6 counterexample: with `N = 0` the claim demands `min(0, 1) = 0`
remaining rows, but `trim_seen` returns early for `max_seen < 1` and the
account keeps its one row. -/
theorem trim_seen_counterexample :
    ((trim_seen dbOneSeen "u" 0).seen.filter (fun r => r.artist_id = 0)).length = 1 ∧
    (dbOneSeen.seen.filter (fun r => r.artist_id = 0)).length = 1 := by
  constructor <;> decide

theorem insertDesc_small (x : Nat) :
    ∀ l : List Nat, (∀ y ∈ l, x < y) → insertDesc x l = l ++ [x]
  | [], _ => rfl
  | y :: ys, h => by
    rw [insertDesc, if_neg (by
      have := h y (List.mem_cons_self y ys)
      omega)]
    rw [insertDesc_small x ys (fun z hz => h z (List.mem_cons_of_mem y hz))]
    rfl

theorem sortDesc_of_increasing :
    ∀ l : List Nat, l.Pairwise (· < ·) → sortDesc l = l.reverse
  | [], _ => rfl
  | x :: xs, h => by
    rw [sortDesc, sortDesc_of_increasing xs (List.Pairwise.of_cons h)]
    rw [insertDesc_small x xs.reverse
      (fun y hy => (List.pairwise_cons.mp h).1 y (List.mem_reverse.mp hy))]
    rw [List.reverse_cons]

/-- Core of the trim invariant: filtering the account's rows down to the
`n` largest ids (= the `n` most recent inserts) is dropping all but the last
`n` rows. -/
theorem trimKeep (n : Nat) :
    ∀ own : List SeenRow, own.Pairwise (fun r s => r.id < s.id) →
      own.filter (fun r => r.id ∈ (sortDesc (own.map (·.id))).take n) =
        own.drop (own.length - n)
  | [], _ => by simp
  | r :: rest, h => by
    have hids : ((r :: rest).map (·.id)).Pairwise (· < ·) :=
      List.Pairwise.map _ (fun _ _ hab => hab) h
    rw [sortDesc_of_increasing _ hids]
    rw [List.map_cons, List.reverse_cons]
    by_cases hn : (r :: rest).length ≤ n
    · rw [Nat.sub_eq_zero_of_le hn, List.drop_zero]
      apply List.filter_eq_self.mpr
      intro s hs
      have hmem : s.id ∈ (rest.map (·.id)).reverse ++ [r.id] := by
        rcases List.mem_cons.mp hs with rfl | hs
        · exact List.mem_append_right _ (List.mem_singleton_self _)
        · exact List.mem_append_left _
            (List.mem_reverse.mpr (List.mem_map_of_mem _ hs))
      rw [List.take_of_length_le (by simpa using hn)]
      simpa using hmem
    · have hn2 : n ≤ rest.length := by
        simp only [List.length_cons] at hn
        omega
      rw [List.take_append_of_le_length (by simpa using hn2)]
      rw [List.filter_cons]
      have hrnot : r.id ∉ ((rest.map (·.id)).reverse.take n) := by
        intro hmem
        have h1 : r.id ∈ rest.map (·.id) := by
          have := List.mem_of_mem_take hmem
          simpa using List.mem_reverse.mp this
        rcases List.mem_map.mp h1 with ⟨s, hs, hsid⟩
        have := (List.pairwise_cons.mp h).1 s hs
        omega
      rw [if_neg (by simpa using hrnot)]
      have hIH := trimKeep n rest (List.Pairwise.of_cons h)
      rw [sortDesc_of_increasing _ (List.Pairwise.map _ (fun _ _ hab => hab)
        (List.Pairwise.of_cons h))] at hIH
      rw [hIH]
      have harith : (r :: rest).length - n = (rest.length - n) + 1 := by
        simp only [List.length_cons]
        omega
      rw [harith, List.drop_succ_cons]

/-- C6 (amended): for `N ≥ 1`, `trim_seen` keeps, for the account, exactly
the `min(N, priorCount)` most-recently-inserted seen rows (the suffix of the
insertion order) and leaves every other account's rows unchanged; for
`N < 1` it is a no-op (the source returns early), not a full purge. -/
theorem trim_seen_amended (db : DbState) (u : String) (N : Int) (a : Nat)
    (hN : 1 ≤ N) (ha : _get_artist_id db u = some a)
    (hinc : db.seen.Pairwise (fun r s => r.id < s.id)) :
    ((trim_seen db u N).seen.filter (fun r => ¬(r.artist_id = a))) =
        db.seen.filter (fun r => ¬(r.artist_id = a)) ∧
    (trim_seen db u N).seen.filter (fun r => r.artist_id = a) =
        (db.seen.filter (fun r => r.artist_id = a)).drop
          ((db.seen.filter (fun r => r.artist_id = a)).length - N.toNat) ∧
    ((trim_seen db u N).seen.filter (fun r => r.artist_id = a)).length =
        min N.toNat (db.seen.filter (fun r => r.artist_id = a)).length ∧
    (∀ M : Int, M < 1 → trim_seen db u M = db) := by
  have hlt : ¬(N < 1) := by omega
  have hfourth : ∀ M : Int, M < 1 → trim_seen db u M = db := by
    intro M hM
    unfold trim_seen
    rw [if_pos hM]
  have hmain : (trim_seen db u N).seen =
      db.seen.filter (fun r =>
        !(r.artist_id = a &&
          !(r.id ∈ (sortDesc ((db.seen.filter (fun r => r.artist_id = a)).map (·.id))).take
            N.toNat))) := by
    unfold trim_seen
    rw [if_neg hlt, ha]
  have hown : (trim_seen db u N).seen.filter (fun r => r.artist_id = a) =
      (db.seen.filter (fun r => r.artist_id = a)).drop
        ((db.seen.filter (fun r => r.artist_id = a)).length - N.toNat) := by
    rw [hmain, List.filter_filter]
    have hstep : db.seen.filter (fun r =>
        decide (r.artist_id = a) &&
        !(r.artist_id = a &&
          !(r.id ∈ (sortDesc ((db.seen.filter (fun r => r.artist_id = a)).map (·.id))).take
            N.toNat))) =
        (db.seen.filter (fun r => r.artist_id = a)).filter (fun r =>
          r.id ∈ (sortDesc ((db.seen.filter (fun r => r.artist_id = a)).map (·.id))).take
            N.toNat) := by
      rw [List.filter_filter]
      apply List.filter_congr
      intro r _
      by_cases hr : r.artist_id = a
      · by_cases hm : r.id ∈ (sortDesc ((db.seen.filter
            (fun r => r.artist_id = a)).map (·.id))).take N.toNat <;>
          simp [hr, hm]
      · simp [hr]
    rw [hstep, trimKeep N.toNat _ (List.Pairwise.filter _ hinc)]
  refine ⟨?_, hown, ?_, hfourth⟩
  · rw [hmain, List.filter_filter]
    apply List.filter_congr
    intro r _
    by_cases hr : r.artist_id = a <;> simp [hr]
  · rw [hown, List.length_drop]
    omega

/-- A four-row store over two accounts used to witness the trim theorem. -/
def dbTrimW : DbState :=
  ⟨[(0, "u"), (1, "v")], 2,
   [⟨0, 0, "a", false⟩, ⟨1, 1, "x", false⟩, ⟨2, 0, "b", false⟩, ⟨3, 0, "c", true⟩], 4, []⟩

/-- C6 witness: trimming account `"u"` of `dbTrimW` to 2 rows keeps exactly
its two most recent rows and does not touch account `"v"`. -/
theorem trim_seen_amended_witness :
    ((trim_seen dbTrimW "u" 2).seen.filter (fun r => ¬(r.artist_id = 0))) =
        dbTrimW.seen.filter (fun r => ¬(r.artist_id = 0)) ∧
    (trim_seen dbTrimW "u" 2).seen.filter (fun r => r.artist_id = 0) =
        (dbTrimW.seen.filter (fun r => r.artist_id = 0)).drop
          ((dbTrimW.seen.filter (fun r => r.artist_id = 0)).length - (2 : Int).toNat) ∧
    ((trim_seen dbTrimW "u" 2).seen.filter (fun r => r.artist_id = 0)).length =
        min (2 : Int).toNat (dbTrimW.seen.filter (fun r => r.artist_id = 0)).length ∧
    (∀ M : Int, M < 1 → trim_seen dbTrimW "u" M = dbTrimW) :=
  trim_seen_amended dbTrimW "u" 2 0 (by decide) (by decide) (by decide)

/-! ## Claim C8: filesystem sync never clobbers metadata -/

/-- The sticky relation: the row still has the same path and favorite flag,
and kept its title/tags whenever they were non-empty before. -/
def stickyRel (r0 r : ImageRow) : Prop :=
  r.relative_path = r0.relative_path ∧
  r.is_favorite = r0.is_favorite ∧
  (r0.image_title ≠ "" → r.image_title = r0.image_title) ∧
  (r0.tags ≠ "" → r.tags = r0.tags)

theorem images_get_or_create (db : DbState) (u : String) :
    (_get_or_create_artist_id db u).1.images = db.images := by
  unfold _get_or_create_artist_id
  cases _get_artist_id db u <;> rfl

theorem syncUpsertOne_preserves (d : DiscEntry) (r0 : ImageRow) (db : DbState)
    (h : ∃ r ∈ db.images, stickyRel r0 r) :
    ∃ r ∈ (syncUpsertOne db d).images, stickyRel r0 r := by
  rcases h with ⟨r, hr, hP⟩
  unfold syncUpsertOne
  dsimp only
  simp only [images_get_or_create]
  by_cases hex : (db.images.any fun r => decide (r.relative_path = d.relative_path)) = true
  · rw [if_pos hex]
    refine ⟨_, List.mem_map_of_mem _ hr, ?_⟩
    by_cases hpath : r.relative_path = d.relative_path
    · rw [if_pos hpath]
      refine ⟨hP.1, hP.2.1, ?_, ?_⟩
      · intro ht
        have hrt := hP.2.2.1 ht
        show (if r.image_title = "" then d.image_title else r.image_title) = r0.image_title
        rw [if_neg (by rw [hrt]; exact ht)]
        exact hrt
      · intro ht
        have hrt := hP.2.2.2 ht
        show (if r.tags = "" then "" else r.tags) = r0.tags
        rw [if_neg (by rw [hrt]; exact ht)]
        exact hrt
    · rw [if_neg hpath]
      exact hP
  · rw [if_neg hex]
    exact ⟨r, List.mem_append_left _ hr, hP⟩

theorem foldl_syncUpsert_preserves (r0 : ImageRow) :
    ∀ (ds : List DiscEntry) (db : DbState),
      (∃ r ∈ db.images, stickyRel r0 r) →
      ∃ r ∈ (ds.foldl syncUpsertOne db).images, stickyRel r0 r
  | [], _, h => h
  | d :: ds, db, h =>
    foldl_syncUpsert_preserves r0 ds (syncUpsertOne db d) (syncUpsertOne_preserves d r0 db h)

/-- C8: a filesystem rescan never replaces a non-empty stored title or tag
string and never changes a favorite flag: for every catalog row whose path is
still present on disk, the synced catalog holds a row at the same path with
the same favorite flag and (when previously non-empty) the same title and
tags. -/
theorem sync_images_sticky (db : DbState) (fs : Fs) (output_dir : List String)
    (exts : List String) (r0 : ImageRow) (hr0 : r0 ∈ db.images)
    (hdisc : r0.relative_path ∈ (discoverEntries fs output_dir exts).map (·.relative_path)) :
    ∃ r ∈ (sync_images_from_filesystem db fs output_dir exts).1.images,
      r.relative_path = r0.relative_path ∧
      r.is_favorite = r0.is_favorite ∧
      (r0.image_title ≠ "" → r.image_title = r0.image_title) ∧
      (r0.tags ≠ "" → r.tags = r0.tags) := by
  have hbase : ∃ r ∈ (db.images.filter (fun r =>
      r.relative_path ∈ (discoverEntries fs output_dir exts).map (·.relative_path))),
      stickyRel r0 r :=
    ⟨r0, List.mem_filter.mpr ⟨hr0, by simpa using hdisc⟩, rfl, rfl, fun _ => rfl, fun _ => rfl⟩
  exact foldl_syncUpsert_preserves r0 _ _ hbase

/-- Concrete catalog row with operator-set title, tags and favorite. -/
def rowSyncW : ImageRow := ⟨0, "d1", "u/d1_pic.jpg", "Custom", "a, b", true, 3, 5⟩

def dbSyncW : DbState := ⟨[(0, "u")], 1, [], 0, [rowSyncW]⟩

def fsSyncW : Fs := [⟨["out", "u", "d1_pic.jpg"], [1, 2, 3], 7⟩]

/-- C8 witness: rescanning a disk that still holds `u/d1_pic.jpg` keeps the
row's custom title, tags and favorite flag. -/
theorem sync_images_sticky_witness :
    ∃ r ∈ (sync_images_from_filesystem dbSyncW fsSyncW ["out"] [".jpg"]).1.images,
      r.relative_path = rowSyncW.relative_path ∧
      r.is_favorite = rowSyncW.is_favorite ∧
      (rowSyncW.image_title ≠ "" → r.image_title = rowSyncW.image_title) ∧
      (rowSyncW.tags ≠ "" → r.tags = rowSyncW.tags) :=
  sync_images_sticky dbSyncW fsSyncW ["out"] [".jpg"] rowSyncW (by decide) (by decide)

/-! ## Watcher model (`watcher.py`)

The API client is an oracle structure: gallery pages keyed by requested
offset, download-info / item-detail responses keyed by deviation id (already
`str(...)`-coerced as the source does), and the streamed GET of
`download_file` keyed by URL.  JSON looseness is modelled with `Option`:
a `none` page `results` is a non-list payload, a `none` item is a non-dict
entry, `content_src = none` means no `content` dict. -/

/-- `collect_local_deviation_ids`: ids recoverable from file names directly
inside the account's output subdirectory (prefix before the first `'_'`,
which must not sit at position 0). -/
def collect_local_deviation_ids (fs : Fs) (output_dir : List String)
    (username : String) : List String :=
  let user_dir := output_dir ++ [sanitize_filename username "user"]
  (fs.filter (fun e =>
      e.path.length = user_dir.length + 1 ∧ user_dir.isPrefixOf e.path)).filterMap
    (fun e =>
      let name := e.path.getLast?.getD ""
      match pyFindChar name '_' with
      | some i => if 0 < i then some ((⟨name.data.take i⟩ : String)) else none
      | none => none)

/-- A gallery item, with dict-valued tag entries reduced to their extracted
strings and `metadata_tags = none` when there is no metadata dict. -/
structure Item where
  deviationid : String
  title : String
  is_deleted : Bool
  is_downloadable : Bool
  content_src : Option String
  tags : List String
  metadata_tags : Option (List String)
deriving DecidableEq

/-- `watcher.extract_item_tags` (direct tags first, metadata fallback). -/
def extract_item_tags (it : Item) : List String :=
  let direct := normalize_tags it.tags
  if direct ≠ [] then direct
  else
    match it.metadata_tags with
    | some mt => normalize_tags mt
    | none => []

/-- `DeviantArtApiError` vs `requests.RequestException`. -/
inductive ApiFailure
  | api
  | net
deriving DecidableEq

/-- One page of `fetch_gallery_page` (`results = none`: not a list). -/
structure Page where
  results : Option (List (Option Item))
  has_more : Bool
  next_offset : Option Int
deriving DecidableEq

structure Client where
  gallery : Int → Except ApiFailure Page
  download_info : String → Except ApiFailure (String × String)
  deviation : String → Except ApiFailure Item
  net : String → DlResp

/-- The configuration fields the engine reads. -/
structure AppConfig where
  seed_only : Bool
  allow_preview : Bool
  include_mature : Bool
  limit : Int
  pages : Int
  max_seen : Int
  output_dir : List String

/-- `urlparse(url).path` for conventional URLs (fragment and query cut,
scheme and netloc dropped); percent-decoding is not modelled. -/
def takeUntilChar (s : String) (c : Char) : String :=
  ⟨s.data.takeWhile (· ≠ c)⟩

def afterSchemeAux : List Char → Option (List Char)
  | ':' :: '/' :: '/' :: rest => some rest
  | _ :: rest => afterSchemeAux rest
  | [] => none

def urlPath (url : String) : String :=
  let s := takeUntilChar (takeUntilChar url '#') '?'
  match afterSchemeAux s.data with
  | some rest => ⟨rest.dropWhile (· ≠ '/')⟩
  | none => s

def lastComponent (s : String) : String :=
  ⟨(s.data.reverse.takeWhile (· ≠ '/')).reverse⟩

/-- `storage.extension_from_url`. -/
def extension_from_url (url : String) : String :=
  pyLower (pathSuffix (lastComponent (urlPath url)))

/-- `storage.build_output_path`. -/
def build_output_path (output_dir : List String) (username deviation_id title source_url : String)
    (preferred_filename : Option String) : List String :=
  let user_dir := output_dir ++ [sanitize_filename username "user"]
  let pe : String × String :=
    match preferred_filename with
    | some pf =>
      if pf = "" then ("", "")
      else
        let nm := lastComponent pf
        (pyLower (pathSuffix nm), pathStem nm)
    | none => ("", "")
  let ext1 := if pe.1 = "" then extension_from_url source_url else pe.1
  let ext := if ext1 = "" then ".jpg" else ext1
  let safe_stem := sanitize_filename (pyOrStr pe.2 (pyOrStr title deviation_id)) "deviation"
  user_dir ++ [deviation_id ++ "_" ++ safe_stem ++ ext]

/-- The loop state of one `process_user_once` call: the mutable stores, the
three in-memory id sets, the counters, and two ghost observables
(`downloadCalls`, `failedDownloads`). -/
structure LoopState where
  db : DbState
  fs : Fs
  seen_set : List String
  seeded_set : List String
  processed : List String
  local_ids : List String
  pages_checked : Nat
  new_items : Nat
  downloaded : Nat
  existing : Nat
  skipped : Nat
  downloadCalls : Nat
  failedDownloads : List String

/-- The inner `unmark_seen` closure. -/
def unmark_seen (u : String) (s : LoopState) (dev : String) : LoopState :=
  { s with
      db := remove_seen_ids s.db u [dev],
      seen_set := s.seen_set.filter (fun x => x ≠ dev),
      seeded_set := s.seeded_set.filter (fun x => x ≠ dev) }

/-- The inner `mark_seen` closure. -/
def mark_seen (u : String) (s : LoopState) (dev : String) (seeded : Bool) : LoopState :=
  { s with
      db := upsert_seen s.db u dev seeded,
      seen_set := if dev ∈ s.seen_set then s.seen_set else dev :: s.seen_set,
      seeded_set :=
        if seeded then (if dev ∈ s.seeded_set then s.seeded_set else dev :: s.seeded_set)
        else s.seeded_set.filter (fun x => x ≠ dev) }

/-- Source lines 192-208: resolve the download URL and preferred filename,
with `DeviantArtApiError` from `fetch_download_info` caught and logged. -/
def resolve_dlinfo (client : Client) (item : Item) (dev : String) :
    Except ApiFailure (String × Option String) :=
  if item.is_downloadable then
    match client.download_info dev with
    | .ok info => pure (info.1, if info.2 = "" then none else some info.2)
    | .error .api => pure ("", none)
    | .error .net => throw .net
  else pure ("", none)

/-- Source lines 220-226: item tags, fetched from `fetch_deviation` when the
item itself carries none, with `DeviantArtApiError` caught. -/
def resolve_tags (client : Client) (item : Item) (dev : String) :
    Except ApiFailure (List String) :=
  if extract_item_tags item = [] then
    match client.deviation dev with
    | .ok d => pure (extract_item_tags d)
    | .error .api => pure (extract_item_tags item)
    | .error .net => throw .net
  else pure (extract_item_tags item)

/-- Source lines 205-208: fall back to the preview `content` URL when the
original is unavailable and previews are allowed. -/
def choose_download_url (cfg : AppConfig) (item : Item) (src0 : String) : String :=
  if src0 = "" ∧ cfg.allow_preview then
    match item.content_src with
    | some src => src
    | none => src0
  else src0

/-- Source lines 228-259: the download attempt and its bookkeeping, after the
URL and tags have been resolved (the `requests.RequestException` from
`download_file` is caught here, so this part is pure). -/
def finishDownload (cfg : AppConfig) (client : Client) (u dev title url : String)
    (pref : Option String) (tags : List String) (s2 : LoopState) : LoopState :=
  let output_path := build_output_path cfg.output_dir u dev title url pref
  let dl := download_file s2.fs output_path (client.net url)
  let s3 := { s2 with downloadCalls := s2.downloadCalls + 1, fs := dl.fs }
  match dl.result with
  | .error _ =>
    { s3 with skipped := s3.skipped + 1,
              failedDownloads := dev :: s3.failedDownloads }
  | .ok created =>
    let s4 := mark_seen u s3 dev false
    let s5 := { s4 with
      local_ids := if dev ∈ s4.local_ids then s4.local_ids else dev :: s4.local_ids }
    let s6 := { s5 with
      db := upsert_image s5.db u dev output_path cfg.output_dir s5.fs title tags }
    if created then { s6 with downloaded := s6.downloaded + 1 }
    else { s6 with existing := s6.existing + 1 }

/-- The body of the `for item in results` loop (source lines 162-259);
`.error` means an uncaught `requests.RequestException` from one of the two
inner API calls. -/
def processItem (cfg : AppConfig) (client : Client) (u : String) (s : LoopState)
    (oitem : Option Item) : Except ApiFailure LoopState :=
  match oitem with
  | none => .ok s
  | some item =>
    let deviation_id := pyStrip item.deviationid
    if deviation_id = "" ∨ deviation_id ∈ s.processed then .ok s
    else if deviation_id ∈ s.seen_set ∧
        (deviation_id ∈ s.seeded_set ∨ deviation_id ∈ s.local_ids) then .ok s
    else
      let s1 := if deviation_id ∈ s.seen_set then unmark_seen u s deviation_id else s
      let s2 := { s1 with processed := deviation_id :: s1.processed,
                          new_items := s1.new_items + 1 }
      let title := pyOrStr (pyStrip (pyOrStr item.title deviation_id)) deviation_id
      if cfg.seed_only then .ok (mark_seen u s2 deviation_id true)
      else if item.is_deleted then .ok { s2 with skipped := s2.skipped + 1 }
      else
        (resolve_dlinfo client item deviation_id) >>= fun dlinfo =>
        let download_url := choose_download_url cfg item dlinfo.1
        if download_url = "" then
          pure { s2 with skipped := s2.skipped + 1 }
        else
          (resolve_tags client item deviation_id) >>= fun tags =>
          pure (finishDownload cfg client u deviation_id title download_url dlinfo.2
            tags s2)

def processItems (cfg : AppConfig) (client : Client) (u : String) :
    List (Option Item) → LoopState → Except ApiFailure LoopState
  | [], s => .ok s
  | it :: rest, s => do
    let s' ← processItem cfg client u s it
    processItems cfg client u rest s'

/-- The `for _ in range(max_pages)` loop, with the remaining page count as
fuel. -/
def pageLoop (cfg : AppConfig) (client : Client) (u : String) :
    Nat → Int → LoopState → Except ApiFailure LoopState
  | 0, _, s => .ok s
  | fuel + 1, offset, s => do
    let s0 := { s with pages_checked := s.pages_checked + 1 }
    let page ← client.gallery offset
    match page.results with
    | none => .ok s0
    | some items => do
      let s' ← processItems cfg client u items s0
      if !page.has_more then .ok s'
      else
        match page.next_offset with
        | none => .ok s'
        | some next => pageLoop cfg client u fuel next s'

/-- The stale-seen recovery block (source lines 126-141). -/
def stale_seen_recovery (db : DbState) (u : String)
    (seen_set seeded_set local_ids : List String) :
    DbState × List String × List String :=
  let stale := seen_set.filter (fun i => i ∉ seeded_set ∧ i ∉ local_ids)
  if stale = [] then (db, seen_set, seeded_set)
  else
    (remove_seen_ids db u stale,
     seen_set.filter (fun i => i ∉ stale),
     seeded_set.filter (fun i => i ∉ stale))

structure RunStats where
  pages_checked : Nat
  new_items : Nat
  downloaded : Nat
  existing : Nat
  skipped : Nat
deriving DecidableEq

/-- The observables of one `process_user_once` run: the returned statistics,
the final stores, and ghost fields exposing the intermediate states the
claims talk about (state after stale recovery, state before the final trim,
the ids processed this run, how often `download_file` ran and for which ids
it raised). -/
structure RunResult where
  stats : RunStats
  db : DbState
  fs : Fs
  dbAfterRecovery : DbState
  seenAfterRecovery : List String
  seededAfterRecovery : List String
  dbBeforeTrim : DbState
  processedIds : List String
  downloadCalls : Nat
  failedDownloads : List String
deriving DecidableEq

/-- `watcher.process_user_once`. -/
def process_user_once (cfg : AppConfig) (client : Client) (db : DbState) (fs : Fs)
    (username : String) (start_page : Int := 1) (end_page : Option Int := none)
    (page_size : Option Int := none) : Except ApiFailure RunResult := do
  let seen0 := get_seen_ids db username
  let seeded0 := get_seeded_ids db username
  let local0 := collect_local_deviation_ids fs cfg.output_dir username
  let effective_limit := max 1 (min 24 (page_size.getD cfg.limit))
  let startP := max 1 start_page
  let endP :=
    match end_page with
    | none => startP + max 1 cfg.pages - 1
    | some e => max startP e
  let max_pages := endP - startP + 1
  let rec0 :=
    if ¬cfg.seed_only then stale_seen_recovery db username seen0 seeded0 local0
    else (db, seen0, seeded0)
  let offset := (startP - 1) * effective_limit
  let s0 : LoopState :=
    { db := rec0.1, fs := fs, seen_set := rec0.2.1, seeded_set := rec0.2.2,
      processed := [], local_ids := local0, pages_checked := 0, new_items := 0,
      downloaded := 0, existing := 0, skipped := 0, downloadCalls := 0,
      failedDownloads := [] }
  let sF ← pageLoop cfg client username max_pages.toNat offset s0
  let dbF := trim_seen sF.db username cfg.max_seen
  pure {
    stats := ⟨sF.pages_checked, sF.new_items, sF.downloaded, sF.existing, sF.skipped⟩,
    db := dbF, fs := sF.fs,
    dbAfterRecovery := rec0.1, seenAfterRecovery := rec0.2.1,
    seededAfterRecovery := rec0.2.2, dbBeforeTrim := sF.db,
    processedIds := sF.processed, downloadCalls := sF.downloadCalls,
    failedDownloads := sF.failedDownloads }

/-! ## Claim C1: stale-seen recovery -/

theorem mem_get_seen_ids (db : DbState) (u : String) (a : Nat) (i : String)
    (ha : _get_artist_id db u = some a) :
    i ∈ get_seen_ids db u ↔ ∃ row ∈ db.seen, row.artist_id = a ∧ row.deviation_id = i := by
  unfold get_seen_ids
  rw [ha]
  simp only [List.mem_map, List.mem_filter]
  constructor
  · rintro ⟨row, ⟨hrow, hart⟩, hdev⟩
    exact ⟨row, hrow, by simpa using hart, hdev⟩
  · rintro ⟨row, hrow, hart, hdev⟩
    exact ⟨row, ⟨hrow, by simpa using hart⟩, hdev⟩

theorem mem_get_seeded_ids (db : DbState) (u : String) (a : Nat) (i : String)
    (ha : _get_artist_id db u = some a) :
    i ∈ get_seeded_ids db u ↔
      ∃ row ∈ db.seen, row.artist_id = a ∧ row.seeded = true ∧ row.deviation_id = i := by
  unfold get_seeded_ids
  rw [ha]
  simp only [List.mem_map, List.mem_filter]
  constructor
  · rintro ⟨row, ⟨hrow, hart⟩, hdev⟩
    rw [Bool.and_eq_true, decide_eq_true_eq] at hart
    exact ⟨row, hrow, hart.1, hart.2, hdev⟩
  · rintro ⟨row, hrow, hart, hsd, hdev⟩
    exact ⟨row, ⟨hrow, by simp [hart, hsd]⟩, hdev⟩

theorem strip_filter_id (l : List String)
    (h : ∀ x ∈ l, pyStrip x = x ∧ x ≠ "") :
    (l.map pyStrip).filter (fun s => s ≠ "") = l := by
  have hmap : l.map pyStrip = l := by
    rw [List.map_congr_left (fun a ha => (h a ha).1)]
    exact List.map_id l
  rw [hmap]
  exact List.filter_eq_self.mpr (fun a ha => by simpa using (h a ha).2)

/-- C1: with seed-only off, a successful `process_user_once` run performs the
stale-seen recovery before walking any page: in the recovered store the
account's seen set holds exactly the previously-seen ids that were seeded or
recoverable from a local filename, the seeded set is unchanged, and the
in-memory sets handed to the page walk agree with the recovered store — so
every stale id has been unmarked and is eligible to be re-processed as new
in the same run. -/
theorem stale_seen_recovery_exact (cfg : AppConfig) (client : Client) (db : DbState)
    (fs : Fs) (u : String) (sp : Int) (ep ps : Option Int) (r : RunResult)
    (hseed : cfg.seed_only = false)
    (hids : ∀ row ∈ db.seen, pyStrip row.deviation_id = row.deviation_id ∧
      row.deviation_id ≠ "")
    (hrun : process_user_once cfg client db fs u sp ep ps = .ok r) :
    (∀ i, i ∈ get_seen_ids r.dbAfterRecovery u ↔
        i ∈ get_seen_ids db u ∧
          (i ∈ get_seeded_ids db u ∨ i ∈ collect_local_deviation_ids fs cfg.output_dir u)) ∧
    (∀ i, i ∈ get_seeded_ids r.dbAfterRecovery u ↔ i ∈ get_seeded_ids db u) ∧
    (∀ i, i ∈ r.seenAfterRecovery ↔ i ∈ get_seen_ids r.dbAfterRecovery u) ∧
    (∀ i, i ∈ r.seededAfterRecovery ↔ i ∈ get_seeded_ids r.dbAfterRecovery u) := by
  -- extract the recovery components from the successful run
  have hexc : ∀ {α β : Type} (x : Except ApiFailure α) (f : α → Except ApiFailure β) (b : β),
      (x >>= f) = .ok b → ∃ a2, x = .ok a2 ∧ f a2 = .ok b := by
    intro α β x f b hx
    cases x with
    | error e => exact absurd hx (by simp [Bind.bind, Except.bind])
    | ok a2 => exact ⟨a2, rfl, by simpa [Bind.bind, Except.bind] using hx⟩
  unfold process_user_once at hrun
  dsimp only at hrun
  rcases hexc _ _ _ hrun with ⟨sF, _, hpure⟩
  have hr : r.dbAfterRecovery =
      (if ¬cfg.seed_only = true then
        stale_seen_recovery db u (get_seen_ids db u) (get_seeded_ids db u)
          (collect_local_deviation_ids fs cfg.output_dir u)
      else (db, get_seen_ids db u, get_seeded_ids db u)).1 ∧
      r.seenAfterRecovery =
      (if ¬cfg.seed_only = true then
        stale_seen_recovery db u (get_seen_ids db u) (get_seeded_ids db u)
          (collect_local_deviation_ids fs cfg.output_dir u)
      else (db, get_seen_ids db u, get_seeded_ids db u)).2.1 ∧
      r.seededAfterRecovery =
      (if ¬cfg.seed_only = true then
        stale_seen_recovery db u (get_seen_ids db u) (get_seeded_ids db u)
          (collect_local_deviation_ids fs cfg.output_dir u)
      else (db, get_seen_ids db u, get_seeded_ids db u)).2.2 := by
    have hr0 : Except.ok (ε := ApiFailure) (RunResult.mk
        ⟨sF.pages_checked, sF.new_items, sF.downloaded, sF.existing, sF.skipped⟩
        (trim_seen sF.db u cfg.max_seen) sF.fs
        (if ¬cfg.seed_only = true then
          stale_seen_recovery db u (get_seen_ids db u) (get_seeded_ids db u)
            (collect_local_deviation_ids fs cfg.output_dir u)
        else (db, get_seen_ids db u, get_seeded_ids db u)).1
        (if ¬cfg.seed_only = true then
          stale_seen_recovery db u (get_seen_ids db u) (get_seeded_ids db u)
            (collect_local_deviation_ids fs cfg.output_dir u)
        else (db, get_seen_ids db u, get_seeded_ids db u)).2.1
        (if ¬cfg.seed_only = true then
          stale_seen_recovery db u (get_seen_ids db u) (get_seeded_ids db u)
            (collect_local_deviation_ids fs cfg.output_dir u)
        else (db, get_seen_ids db u, get_seeded_ids db u)).2.2
        sF.db sF.processed sF.downloadCalls sF.failedDownloads) = Except.ok r := hpure
    have hreq := Except.ok.inj hr0
    rw [← hreq]
    exact ⟨rfl, rfl, rfl⟩
  rw [hr.1, hr.2.1, hr.2.2]
  rw [if_pos (by rw [hseed]; simp)]
  clear hr hpure hrun
  -- now reason about the recovery itself
  set seen0 := get_seen_ids db u with hseen0
  set seeded0 := get_seeded_ids db u with hseeded0
  set local0 := collect_local_deviation_ids fs cfg.output_dir u with hlocal0
  unfold stale_seen_recovery
  set stale := seen0.filter (fun i => i ∉ seeded0 ∧ i ∉ local0) with hstale
  have hstmem : ∀ i, i ∈ stale ↔ i ∈ seen0 ∧ (i ∉ seeded0 ∧ i ∉ local0) := by
    intro i
    rw [hstale, List.mem_filter]
    simp
  by_cases hst : stale = []
  · rw [if_pos hst]
    dsimp only
    have hall : ∀ i ∈ seen0, i ∈ seeded0 ∨ i ∈ local0 := by
      intro i hi
      by_contra hcon
      push_neg at hcon
      have hin : i ∈ stale := (hstmem i).mpr ⟨hi, hcon.1, hcon.2⟩
      rw [hst] at hin
      exact absurd hin (List.not_mem_nil i)
    exact ⟨fun i => ⟨fun hi => ⟨hi, hall i hi⟩, fun hh => hh.1⟩,
      fun i => Iff.rfl, fun i => Iff.rfl, fun i => Iff.rfl⟩
  · rw [if_neg hst]
    dsimp only
    cases hga : _get_artist_id db u with
    | none =>
      exfalso
      have hs0 : seen0 = [] := by
        rw [hseen0]
        unfold get_seen_ids
        rw [hga]
      rw [hstale, hs0] at hst
      exact hst rfl
    | some a =>
      have hwfstale : ∀ x ∈ stale, pyStrip x = x ∧ x ≠ "" := by
        intro x hx
        have hxseen : x ∈ seen0 := ((hstmem x).mp hx).1
        rw [hseen0] at hxseen
        rcases (mem_get_seen_ids db u a x hga).mp hxseen with ⟨row, hrow, _, hdev⟩
        have hwf := hids row hrow
        rw [hdev] at hwf
        exact hwf
      have hids2 : (stale.map pyStrip).filter (fun s => s ≠ "") = stale :=
        strip_filter_id _ hwfstale
      unfold remove_seen_ids
      dsimp only
      rw [hids2, if_neg hst, hga]
      dsimp only
      have hga2 : _get_artist_id { db with seen := db.seen.filter (fun r => !(r.artist_id = a && r.deviation_id ∈ stale)) } u = some a := hga
      have hseenmem : ∀ i,
          i ∈ get_seen_ids { db with seen := db.seen.filter (fun r => !(r.artist_id = a && r.deviation_id ∈ stale)) } u ↔
          i ∈ seen0 ∧ i ∉ stale := by
        intro i
        rw [mem_get_seen_ids _ u a i hga2, hseen0]
        constructor
        · rintro ⟨row, hrowf, hart, hdev⟩
          rcases List.mem_filter.mp hrowf with ⟨hrow, hkeep⟩
          have hnst : i ∉ stale := by
            intro hin
            rw [Bool.not_eq_eq_eq_not, Bool.not_true, Bool.and_eq_false_iff] at hkeep
            rcases hkeep with hk | hk
            · exact absurd hart (by simpa using hk)
            · rw [hdev] at hk
              exact absurd hin (by simpa using hk)
          exact ⟨(mem_get_seen_ids db u a i hga).mpr ⟨row, hrow, hart, hdev⟩, hnst⟩
        · rintro ⟨hi, hnst⟩
          rcases (mem_get_seen_ids db u a i hga).mp hi with ⟨row, hrow, hart, hdev⟩
          refine ⟨row, List.mem_filter.mpr ⟨hrow, ?_⟩, hart, hdev⟩
          simp [hart, hdev, hnst]
      have hseededmem : ∀ i,
          i ∈ get_seeded_ids { db with seen := db.seen.filter (fun r => !(r.artist_id = a && r.deviation_id ∈ stale)) } u ↔
          i ∈ seeded0 ∧ i ∉ stale := by
        intro i
        rw [mem_get_seeded_ids _ u a i hga2, hseeded0]
        constructor
        · rintro ⟨row, hrowf, hart, hsd, hdev⟩
          rcases List.mem_filter.mp hrowf with ⟨hrow, hkeep⟩
          have hnst : i ∉ stale := by
            intro hin
            rw [Bool.not_eq_eq_eq_not, Bool.not_true, Bool.and_eq_false_iff] at hkeep
            rcases hkeep with hk | hk
            · exact absurd hart (by simpa using hk)
            · rw [hdev] at hk
              exact absurd hin (by simpa using hk)
          exact ⟨(mem_get_seeded_ids db u a i hga).mpr ⟨row, hrow, hart, hsd, hdev⟩, hnst⟩
        · rintro ⟨hi, hnst⟩
          rcases (mem_get_seeded_ids db u a i hga).mp hi with ⟨row, hrow, hart, hsd, hdev⟩
          refine ⟨row, List.mem_filter.mpr ⟨hrow, ?_⟩, hart, hsd, hdev⟩
          simp [hart, hdev, hnst]
      refine ⟨?_, ?_, ?_, ?_⟩
      · intro i
        rw [hseenmem i]
        have hsm := hstmem i
        constructor
        · rintro ⟨hi, hnst⟩
          by_cases hsd : i ∈ seeded0
          · exact ⟨hi, Or.inl hsd⟩
          by_cases hlc : i ∈ local0
          · exact ⟨hi, Or.inr hlc⟩
          exact absurd (hsm.mpr ⟨hi, hsd, hlc⟩) hnst
        · rintro ⟨hi, hor⟩
          refine ⟨hi, fun hin => ?_⟩
          rcases hsm.mp hin with ⟨_, hnsd, hnlc⟩
          rcases hor with hsd | hlc
          · exact hnsd hsd
          · exact hnlc hlc
      · intro i
        rw [hseededmem i]
        constructor
        · exact fun hh => hh.1
        · intro hi
          refine ⟨hi, fun hin => ?_⟩
          exact (hstmem i).mp hin |>.2.1 hi
      · intro i
        rw [hseenmem i, List.mem_filter]
        simp
      · intro i
        rw [hseededmem i, List.mem_filter]
        simp

def cfgC1 : AppConfig := ⟨false, false, false, 24, 1, 100, ["out"]⟩

def clientC1 : Client :=
  { gallery := fun _ => .ok ⟨some [], false, none⟩,
    download_info := fun _ => .error .api,
    deviation := fun _ => .error .api,
    net := fun _ => .ok ([], none) }

/-- Store with a stale non-seeded id `"gone"` and a seeded id `"kept"`. -/
def dbC1 : DbState :=
  ⟨[(0, "u")], 1, [⟨0, 0, "gone", false⟩, ⟨1, 0, "kept", true⟩], 2, []⟩

def runC1 : Except ApiFailure RunResult :=
  process_user_once cfgC1 clientC1 dbC1 [] "u" 1 none none

def rC1 : RunResult :=
  match runC1 with
  | .ok r => r
  | .error _ => ⟨⟨0, 0, 0, 0, 0⟩, dbC1, [], dbC1, [], [], dbC1, [], 0, []⟩

/-- C1 witness: on a concrete run, the stale id `"gone"` is out of the
recovered seen set (it was neither seeded nor on disk) while the seeded id
`"kept"` survives. -/
theorem stale_seen_recovery_exact_witness :
    ("gone" ∈ get_seen_ids rC1.dbAfterRecovery "u" ↔
      "gone" ∈ get_seen_ids dbC1 "u" ∧
        ("gone" ∈ get_seeded_ids dbC1 "u" ∨
          "gone" ∈ collect_local_deviation_ids [] ["out"] "u")) ∧
    ("kept" ∈ get_seeded_ids rC1.dbAfterRecovery "u" ↔
      "kept" ∈ get_seeded_ids dbC1 "u") ∧
    ("gone" ∈ rC1.seenAfterRecovery ↔ "gone" ∈ get_seen_ids rC1.dbAfterRecovery "u") := by
  have h := stale_seen_recovery_exact cfgC1 clientC1 dbC1 [] "u" 1 none none rC1
    (by decide) (by decide) rfl
  exact ⟨h.1 "gone", h.2.1 "kept", h.2.2.1 "gone"⟩

/-! ## Store lemmas for the run-level claims C2 and C5 -/

theorem dropWhile_of_head_not {α : Type} (p : α → Bool) (l : List α)
    (h : (l.head?).all (fun a => !p a) = true) : l.dropWhile p = l := by
  cases l with
  | nil => rfl
  | cons a t =>
    simp only [List.head?_cons, Option.all_some] at h
    have hpa : p a = false := by simpa using h
    rw [List.dropWhile_cons_of_neg (by simp [hpa])]

theorem pyStripListWith_idem (p : Char → Bool) (l : List Char) :
    pyStripListWith p (pyStripListWith p l) = pyStripListWith p l := by
  have h1 := pyStripListWith_head_all p l
  have h2 := pyStripListWith_getLast_all p l
  generalize hT : pyStripListWith p l = T at h1 h2
  show ((T.dropWhile p).reverse.dropWhile p).reverse = T
  rw [dropWhile_of_head_not p T h1]
  rw [dropWhile_of_head_not p T.reverse (by rw [List.head?_reverse]; exact h2)]
  rw [List.reverse_reverse]

theorem pyStrip_idem (s : String) : pyStrip (pyStrip s) = pyStrip s := by
  unfold pyStrip
  congr 1
  show pyStripListWith isPySpace (pyStripListWith isPySpace s.data) =
    pyStripListWith isPySpace s.data
  exact pyStripListWith_idem isPySpace s.data

/-- The autoincrement well-formedness of the seen/artists tables: every seen
row references an existing artist and every artist id is below the
autoincrement counter. -/
def SeenWf (db : DbState) : Prop :=
  (∀ row ∈ db.seen, row.artist_id ∈ db.artists.map Prod.fst) ∧
  (∀ p ∈ db.artists, p.1 < db.nextArtistId)

theorem _get_artist_id_seen_irrel (db : DbState) (v : String) (seen' : List SeenRow)
    (n : Nat) (img : List ImageRow) :
    _get_artist_id ⟨db.artists, db.nextArtistId, seen', n, img⟩ v = _get_artist_id db v := rfl

theorem find?_append_one {α : Type} (pr : α → Bool) (x : α) :
    ∀ l : List α, (l ++ [x]).find? pr =
      (match l.find? pr with
       | some y => some y
       | none => if pr x then some x else none)
  | [] => by
    by_cases hx : pr x = true
    · simp [List.find?, hx]
    · simp [List.find?, hx]
  | b :: t => by
    rw [List.cons_append]
    by_cases hb : pr b = true
    · rw [List.find?_cons_of_pos _ hb, List.find?_cons_of_pos _ hb]
    · rw [List.find?_cons_of_neg _ hb, List.find?_cons_of_neg _ hb]
      exact find?_append_one pr x t

/-- Looking an artist up after appending a fresh artist row. -/
theorem _get_artist_id_append (db : DbState) (v w : String) (n : Nat) :
    _get_artist_id { db with artists := db.artists ++ [(n, w)], nextArtistId := db.nextArtistId + 1 } v =
      (match _get_artist_id db v with
       | some a => some a
       | none => if usernameKey w = usernameKey v then some n else none) := by
  unfold _get_artist_id
  dsimp only
  rw [find?_append_one]
  cases hf : db.artists.find? (fun a => usernameKey a.2 = usernameKey v) with
  | some pr => rfl
  | none =>
    by_cases hw : usernameKey w = usernameKey v
    · rw [if_pos (by simpa using hw), if_pos hw]
      rfl
    · rw [if_neg (by simpa using hw), if_neg hw]
      rfl

/-- `get_seen_ids` only reads the artists and seen tables. -/
theorem get_seen_ids_tables (db db2 : DbState) (v : String)
    (hart : db2.artists = db.artists) (hseen : db2.seen = db.seen) :
    get_seen_ids db2 v = get_seen_ids db v := by
  unfold get_seen_ids _get_artist_id
  rw [hart, hseen]

theorem get_seeded_ids_tables (db db2 : DbState) (v : String)
    (hart : db2.artists = db.artists) (hseen : db2.seen = db.seen) :
    get_seeded_ids db2 v = get_seeded_ids db v := by
  unfold get_seeded_ids _get_artist_id
  rw [hart, hseen]

/-- Updating seen rows without touching their artist or deviation id leaves
both id sets unchanged. -/
theorem get_seen_ids_map_invariant (db : DbState) (v : String) (f : SeenRow → SeenRow)
    (hf : ∀ r, (f r).artist_id = r.artist_id ∧ (f r).deviation_id = r.deviation_id) :
    get_seen_ids { db with seen := db.seen.map f } v = get_seen_ids db v := by
  unfold get_seen_ids
  rw [show _get_artist_id { db with seen := db.seen.map f } v = _get_artist_id db v from rfl]
  cases _get_artist_id db v with
  | none => rfl
  | some a =>
    dsimp only
    induction db.seen with
    | nil => rfl
    | cons r t ih =>
      rw [List.map_cons, List.filter_cons, List.filter_cons, (hf r).1]
      by_cases hr : r.artist_id = a
      · rw [if_pos (by simpa using hr), if_pos (by simpa using hr)]
        rw [List.map_cons, List.map_cons, (hf r).2, ih]
      · rw [if_neg (by simpa using hr), if_neg (by simpa using hr), ih]

theorem filter_artist_fresh (db : DbState) (hwf : SeenWf db) (pr : SeenRow → Bool)
    (hpr : ∀ r, pr r = true → r.artist_id = db.nextArtistId) :
    db.seen.filter pr = [] := by
  rw [List.filter_eq_nil_iff]
  intro r hr hprr
  have h1 := hwf.1 r hr
  rcases List.mem_map.mp h1 with ⟨p, hp, hpid⟩
  have h2 := hwf.2 p hp
  have h3 := hpr r hprr
  omega

theorem get_seen_ids_get_or_create (db : DbState) (u v : String) (hwf : SeenWf db) :
    get_seen_ids (_get_or_create_artist_id db u).1 v = get_seen_ids db v := by
  unfold _get_or_create_artist_id
  cases hga : _get_artist_id db u with
  | some a => rfl
  | none =>
    dsimp only
    unfold get_seen_ids
    rw [_get_artist_id_append db v u db.nextArtistId]
    cases hgv : _get_artist_id db v with
    | some a => rfl
    | none =>
      dsimp only
      by_cases hk : usernameKey u = usernameKey v
      · rw [if_pos hk]
        dsimp only
        rw [filter_artist_fresh db hwf _ (fun r hr => by simpa using hr)]
        rfl
      · rw [if_neg hk]

theorem get_seeded_ids_get_or_create (db : DbState) (u v : String) (hwf : SeenWf db) :
    get_seeded_ids (_get_or_create_artist_id db u).1 v = get_seeded_ids db v := by
  unfold _get_or_create_artist_id
  cases hga : _get_artist_id db u with
  | some a => rfl
  | none =>
    dsimp only
    unfold get_seeded_ids
    rw [_get_artist_id_append db v u db.nextArtistId]
    cases hgv : _get_artist_id db v with
    | some a => rfl
    | none =>
      dsimp only
      by_cases hk : usernameKey u = usernameKey v
      · rw [if_pos hk]
        dsimp only
        rw [filter_artist_fresh db hwf _ (fun r hr => by
          rw [Bool.and_eq_true] at hr
          simpa using hr.1)]
        rfl
      · rw [if_neg hk]

theorem seenWf_get_or_create (db : DbState) (u : String) (hwf : SeenWf db) :
    SeenWf (_get_or_create_artist_id db u).1 := by
  unfold _get_or_create_artist_id
  cases _get_artist_id db u with
  | some a => exact hwf
  | none =>
    dsimp only
    constructor
    · intro row hrow
      have h1 := hwf.1 row hrow
      rw [List.map_append]
      exact List.mem_append_left _ h1
    · intro p hp
      rcases List.mem_append.mp hp with hp | hp
      · show p.1 < db.nextArtistId + 1
        exact Nat.lt_succ_of_lt (hwf.2 p hp)
      · rcases List.mem_singleton.mp hp with rfl
        show db.nextArtistId < db.nextArtistId + 1
        exact Nat.lt_succ_self _

theorem artist_mem_get_or_create (db : DbState) (u : String) :
    (_get_or_create_artist_id db u).2 ∈
      ((_get_or_create_artist_id db u).1).artists.map Prod.fst := by
  unfold _get_or_create_artist_id
  cases hga : _get_artist_id db u with
  | some a =>
    dsimp only
    unfold _get_artist_id at hga
    rcases Option.map_eq_some'.mp hga with ⟨p, hp, hpid⟩
    rw [← hpid]
    exact List.mem_map_of_mem _ (List.mem_of_find?_eq_some hp)
  | none =>
    dsimp only
    rw [List.map_append]
    exact List.mem_append_right _ (by simp)

theorem seenWf_upsert_seen (db : DbState) (u dev : String) (b : Bool) (hwf : SeenWf db) :
    SeenWf (upsert_seen db u dev b) := by
  unfold upsert_seen
  dsimp only
  have hwf1 := seenWf_get_or_create db u hwf
  have hmem := artist_mem_get_or_create db u
  by_cases hany : ((_get_or_create_artist_id db u).1.seen.any fun r =>
      decide (r.artist_id = (_get_or_create_artist_id db u).2) &&
        decide (r.deviation_id = dev)) = true
  · rw [if_pos hany]
    constructor
    · intro row hrow
      rcases List.mem_map.mp hrow with ⟨r0, hr0, hfr⟩
      have h1 := hwf1.1 r0 hr0
      rw [← hfr]
      by_cases hc : (decide (r0.artist_id = (_get_or_create_artist_id db u).2) &&
          decide (r0.deviation_id = dev)) = true
      · rw [if_pos hc]
        rw [Bool.and_eq_true, decide_eq_true_eq, decide_eq_true_eq] at hc
        show r0.artist_id ∈ _
        exact h1
      · rw [if_neg hc]
        exact h1
    · exact hwf1.2
  · rw [if_neg hany]
    constructor
    · intro row hrow
      rcases List.mem_append.mp hrow with hrow | hrow
      · exact hwf1.1 row hrow
      · rcases List.mem_singleton.mp hrow with rfl
        exact hmem
    · exact hwf1.2

theorem mem_seen_upsert (db : DbState) (u dev : String) (b : Bool) (i : String)
    (hwf : SeenWf db) :
    i ∈ get_seen_ids (upsert_seen db u dev b) u ↔ i = dev ∨ i ∈ get_seen_ids db u := by
  unfold upsert_seen
  cases hga : _get_artist_id db u with
  | some a =>
    have hoc : _get_or_create_artist_id db u = (db, a) := by
      unfold _get_or_create_artist_id
      rw [hga]
    rw [hoc]
    dsimp only
    by_cases hany : (db.seen.any fun r =>
        decide (r.artist_id = a) && decide (r.deviation_id = dev)) = true
    · rw [if_pos hany]
      rw [get_seen_ids_map_invariant db u _ (fun r => by
        by_cases hc : (decide (r.artist_id = a) && decide (r.deviation_id = dev)) = true
        · rw [if_pos hc]; exact ⟨rfl, rfl⟩
        · rw [if_neg hc]; exact ⟨rfl, rfl⟩)]
      constructor
      · exact Or.inr
      · rintro (rfl | hi)
        · rcases List.any_eq_true.mp hany with ⟨row, hrow, hcond⟩
          rw [Bool.and_eq_true, decide_eq_true_eq, decide_eq_true_eq] at hcond
          exact (mem_get_seen_ids db u a i hga).mpr ⟨row, hrow, hcond.1, hcond.2⟩
        · exact hi
    · rw [if_neg hany]
      have hga2 : _get_artist_id { db with
          seen := db.seen ++ [⟨db.nextSeenId, a, dev, b⟩],
          nextSeenId := db.nextSeenId + 1 } u = some a := hga
      rw [mem_get_seen_ids _ u a i hga2, show ({ db with
          seen := db.seen ++ [⟨db.nextSeenId, a, dev, b⟩],
          nextSeenId := db.nextSeenId + 1 } : DbState).seen =
        db.seen ++ [⟨db.nextSeenId, a, dev, b⟩] from rfl]
      constructor
      · rintro ⟨row, hrow, hart, hdev⟩
        rcases List.mem_append.mp hrow with h | h
        · exact Or.inr ((mem_get_seen_ids db u a i hga).mpr ⟨row, h, hart, hdev⟩)
        · rcases List.mem_singleton.mp h with rfl
          exact Or.inl hdev.symm
      · rintro (rfl | hi)
        · exact ⟨⟨db.nextSeenId, a, i, b⟩, List.mem_append_right _ (by simp), rfl, rfl⟩
        · rcases (mem_get_seen_ids db u a i hga).mp hi with ⟨row, hrow, hart, hdev⟩
          exact ⟨row, List.mem_append_left _ hrow, hart, hdev⟩
  | none =>
    unfold _get_or_create_artist_id
    rw [hga]
    dsimp only
    have hany : (db.seen.any fun r =>
        decide (r.artist_id = db.nextArtistId) && decide (r.deviation_id = dev)) = false := by
      by_contra hcon
      rw [Bool.not_eq_false, List.any_eq_true] at hcon
      rcases hcon with ⟨row, hrow, hcond⟩
      rw [Bool.and_eq_true, decide_eq_true_eq, decide_eq_true_eq] at hcond
      rcases List.mem_map.mp (hwf.1 row hrow) with ⟨p, hp, hpid⟩
      have h2 := hwf.2 p hp
      have h3 := hcond.1
      omega
    rw [if_neg (by simp [hany])]
    have hga2 := _get_artist_id_append db u u db.nextArtistId
    rw [hga] at hga2
    dsimp only at hga2
    rw [if_pos rfl] at hga2
    rw [mem_get_seen_ids _ u db.nextArtistId i (by exact hga2)]
    have hrhs : get_seen_ids db u = [] := by
      unfold get_seen_ids
      rw [hga]
    rw [hrhs]
    constructor
    · rintro ⟨row, hrow, hart, hdev⟩
      rcases List.mem_append.mp hrow with h | h
      · exfalso
        rcases List.mem_map.mp (hwf.1 row h) with ⟨p, hp, hpid⟩
        have h2 := hwf.2 p hp
        omega
      · rcases List.mem_singleton.mp h with rfl
        exact Or.inl hdev.symm
    · rintro (rfl | hi)
      · exact ⟨⟨db.nextSeenId, db.nextArtistId, i, b⟩,
          List.mem_append_right _ (by simp), rfl, rfl⟩
      · exact absurd hi (List.not_mem_nil i)

theorem mem_get_seeded_ids_seen (db : DbState) (S : List SeenRow) (n : Nat) (u : String)
    (a : Nat) (i : String) (ha : _get_artist_id db u = some a) :
    i ∈ get_seeded_ids ⟨db.artists, db.nextArtistId, S, n, db.images⟩ u ↔
      ∃ row ∈ S, row.artist_id = a ∧ row.seeded = true ∧ row.deviation_id = i :=
  mem_get_seeded_ids ⟨db.artists, db.nextArtistId, S, n, db.images⟩ u a i (by exact ha)

theorem mem_seeded_upsert (db : DbState) (u dev : String) (b : Bool) (i : String)
    (hwf : SeenWf db) :
    i ∈ get_seeded_ids (upsert_seen db u dev b) u ↔
      ((i = dev ∧ b = true) ∨ (i ≠ dev ∧ i ∈ get_seeded_ids db u)) := by
  unfold upsert_seen
  cases hga : _get_artist_id db u with
  | some a =>
    have hoc : _get_or_create_artist_id db u = (db, a) := by
      unfold _get_or_create_artist_id
      rw [hga]
    rw [hoc]
    dsimp only
    by_cases hany : (db.seen.any fun r =>
        decide (r.artist_id = a) && decide (r.deviation_id = dev)) = true
    · rw [if_pos hany]
      rw [mem_get_seeded_ids_seen db (db.seen.map (fun r => if (decide (r.artist_id = a) && decide (r.deviation_id = dev)) = true then { r with seeded := b } else r)) db.nextSeenId u a i hga]
      constructor
      · rintro ⟨row, hrow, hart, hsd, hdev⟩
        rcases List.mem_map.mp hrow with ⟨r0, hr0, hfr⟩
        rw [← hfr] at hart hsd hdev
        by_cases hc : (decide (r0.artist_id = a) && decide (r0.deviation_id = dev)) = true
        · rw [if_pos hc] at hart hsd hdev
          rw [Bool.and_eq_true, decide_eq_true_eq, decide_eq_true_eq] at hc
          refine Or.inl ⟨?_, hsd⟩
          rw [show ({ r0 with seeded := b } : SeenRow).deviation_id = r0.deviation_id
            from rfl] at hdev
          rw [← hdev, hc.2]
        · rw [if_neg hc] at hart hsd hdev
          have hne : i ≠ dev := by
            intro he
            exact hc (by simp [hart, hdev, he])
          exact Or.inr ⟨hne, (mem_get_seeded_ids db u a i hga).mpr ⟨r0, hr0, hart, hsd, hdev⟩⟩
      · rintro (⟨hid, hb⟩ | ⟨hne, hi⟩)
        · rcases List.any_eq_true.mp hany with ⟨row, hrow, hcond⟩
          rw [Bool.and_eq_true, decide_eq_true_eq, decide_eq_true_eq] at hcond
          refine ⟨{ row with seeded := b }, ?_, hcond.1, hb, hcond.2.trans hid.symm⟩
          have : (if (decide (row.artist_id = a) && decide (row.deviation_id = dev)) = true
              then { row with seeded := b } else row) = { row with seeded := b } := by
            rw [if_pos (by simp [hcond.1, hcond.2])]
          rw [← this]
          exact List.mem_map_of_mem _ hrow
        · rcases (mem_get_seeded_ids db u a i hga).mp hi with ⟨r0, hr0, hart, hsd, hdev⟩
          refine ⟨r0, ?_, hart, hsd, hdev⟩
          have : (if (decide (r0.artist_id = a) && decide (r0.deviation_id = dev)) = true
              then { r0 with seeded := b } else r0) = r0 := by
            rw [if_neg (by
              intro hc
              rw [Bool.and_eq_true, decide_eq_true_eq, decide_eq_true_eq] at hc
              exact hne (hdev ▸ hc.2 ▸ rfl))]
          rw [← this]
          exact List.mem_map_of_mem _ hr0
    · rw [if_neg hany]
      have hrw := mem_get_seeded_ids_seen db (db.seen ++ [{ id := db.nextSeenId, artist_id := a, deviation_id := dev, seeded := b }]) (db.nextSeenId + 1) u a i hga
      rw [hrw]
      constructor
      · rintro ⟨row, hrow, hart, hsd, hdev⟩
        rcases List.mem_append.mp hrow with h | h
        · have hne : i ≠ dev := by
            intro he
            apply absurd _ (by simp [hany] :
              ¬(db.seen.any fun r =>
                decide (r.artist_id = a) && decide (r.deviation_id = dev)) = true)
            exact List.any_eq_true.mpr ⟨row, h, by simp [hart, hdev, he]⟩
          exact Or.inr ⟨hne, (mem_get_seeded_ids db u a i hga).mpr ⟨row, h, hart, hsd, hdev⟩⟩
        · rcases List.mem_singleton.mp h with rfl
          exact Or.inl ⟨hdev.symm, hsd⟩
      · rintro (⟨hid, hb⟩ | ⟨hne, hi⟩)
        · exact ⟨⟨db.nextSeenId, a, dev, b⟩, List.mem_append_right _ (by simp), rfl, hb,
            hid.symm⟩
        · rcases (mem_get_seeded_ids db u a i hga).mp hi with ⟨row, hrow, hart, hsd, hdev⟩
          exact ⟨row, List.mem_append_left _ hrow, hart, hsd, hdev⟩
  | none =>
    unfold _get_or_create_artist_id
    rw [hga]
    dsimp only
    have hany : (db.seen.any fun r =>
        decide (r.artist_id = db.nextArtistId) && decide (r.deviation_id = dev)) = false := by
      by_contra hcon
      rw [Bool.not_eq_false, List.any_eq_true] at hcon
      rcases hcon with ⟨row, hrow, hcond⟩
      rw [Bool.and_eq_true, decide_eq_true_eq, decide_eq_true_eq] at hcond
      rcases List.mem_map.mp (hwf.1 row hrow) with ⟨p, hp, hpid⟩
      have h2 := hwf.2 p hp
      have h3 := hcond.1
      omega
    rw [if_neg (by simp [hany])]
    have hga2 := _get_artist_id_append db u u db.nextArtistId
    rw [hga] at hga2
    dsimp only at hga2
    rw [if_pos rfl] at hga2
    rw [mem_get_seeded_ids _ u db.nextArtistId i (by exact hga2)]
    have hrhs : get_seeded_ids db u = [] := by
      unfold get_seeded_ids
      rw [hga]
    rw [hrhs]
    constructor
    · rintro ⟨row, hrow, hart, hsd, hdev⟩
      rcases List.mem_append.mp hrow with h | h
      · exfalso
        rcases List.mem_map.mp (hwf.1 row h) with ⟨p, hp, hpid⟩
        have h2 := hwf.2 p hp
        omega
      · rcases List.mem_singleton.mp h with rfl
        exact Or.inl ⟨hdev.symm, hsd⟩
    · rintro (⟨hid, hb⟩ | ⟨_, hi⟩)
      · exact ⟨⟨db.nextSeenId, db.nextArtistId, dev, b⟩,
          List.mem_append_right _ (by simp), rfl, hb, hid.symm⟩
      · exact absurd hi (List.not_mem_nil i)

theorem mem_get_seen_ids_seen (db : DbState) (S : List SeenRow) (n : Nat) (u : String)
    (a : Nat) (i : String) (ha : _get_artist_id db u = some a) :
    i ∈ get_seen_ids ⟨db.artists, db.nextArtistId, S, n, db.images⟩ u ↔
      ∃ row ∈ S, row.artist_id = a ∧ row.deviation_id = i :=
  mem_get_seen_ids ⟨db.artists, db.nextArtistId, S, n, db.images⟩ u a i (by exact ha)

theorem get_seen_ids_seen_none (db : DbState) (S : List SeenRow) (n : Nat) (v : String)
    (h : _get_artist_id db v = none) :
    get_seen_ids ⟨db.artists, db.nextArtistId, S, n, db.images⟩ v = [] := by
  unfold get_seen_ids
  rw [show _get_artist_id ⟨db.artists, db.nextArtistId, S, n, db.images⟩ v = none
    from (by exact h)]

theorem get_seeded_ids_seen_none (db : DbState) (S : List SeenRow) (n : Nat) (v : String)
    (h : _get_artist_id db v = none) :
    get_seeded_ids ⟨db.artists, db.nextArtistId, S, n, db.images⟩ v = [] := by
  unfold get_seeded_ids
  rw [show _get_artist_id ⟨db.artists, db.nextArtistId, S, n, db.images⟩ v = none
    from (by exact h)]

theorem mem_seen_remove (db : DbState) (u : String) (ids : List String) (i : String) :
    i ∈ get_seen_ids (remove_seen_ids db u ids) u ↔
      i ∈ get_seen_ids db u ∧ i ∉ (ids.map pyStrip).filter (fun s => s ≠ "") := by
  unfold remove_seen_ids
  dsimp only
  by_cases h0 : ((ids.map pyStrip).filter (fun s => s ≠ "")) = []
  · rw [if_pos h0, h0]
    simp
  · rw [if_neg h0]
    cases hga : _get_artist_id db u with
    | none =>
      have hrhs : get_seen_ids db u = [] := by
        unfold get_seen_ids
        rw [hga]
      dsimp only
      rw [hrhs]
      simp
    | some a =>
      dsimp only
      rw [mem_get_seen_ids_seen db _ db.nextSeenId u a i hga]
      constructor
      · rintro ⟨row, hrowf, hart, hdev⟩
        rcases List.mem_filter.mp hrowf with ⟨hrow, hkeep⟩
        rw [Bool.not_eq_eq_eq_not, Bool.not_true, Bool.and_eq_false_iff] at hkeep
        refine ⟨(mem_get_seen_ids db u a i hga).mpr ⟨row, hrow, hart, hdev⟩, ?_⟩
        rcases hkeep with hk | hk
        · exact absurd hart (by simpa using hk)
        · rw [hdev] at hk
          simpa using hk
      · rintro ⟨hi, hnm⟩
        rcases (mem_get_seen_ids db u a i hga).mp hi with ⟨row, hrow, hart, hdev⟩
        refine ⟨row, List.mem_filter.mpr ⟨hrow, ?_⟩, hart, hdev⟩
        simp [hart, hdev]
        by_cases hie : i = ""
        · exact Or.inr hie
        · exact Or.inl fun x hx hpx => absurd
            (List.mem_filter.mpr ⟨List.mem_map.mpr ⟨x, hx, hpx⟩, by simpa using hie⟩) hnm

theorem mem_seeded_remove (db : DbState) (u : String) (ids : List String) (i : String) :
    i ∈ get_seeded_ids (remove_seen_ids db u ids) u ↔
      i ∈ get_seeded_ids db u ∧ i ∉ (ids.map pyStrip).filter (fun s => s ≠ "") := by
  unfold remove_seen_ids
  dsimp only
  by_cases h0 : ((ids.map pyStrip).filter (fun s => s ≠ "")) = []
  · rw [if_pos h0, h0]
    simp
  · rw [if_neg h0]
    cases hga : _get_artist_id db u with
    | none =>
      have hrhs : get_seeded_ids db u = [] := by
        unfold get_seeded_ids
        rw [hga]
      dsimp only
      rw [hrhs]
      simp
    | some a =>
      dsimp only
      rw [mem_get_seeded_ids_seen db _ db.nextSeenId u a i hga]
      constructor
      · rintro ⟨row, hrowf, hart, hsd, hdev⟩
        rcases List.mem_filter.mp hrowf with ⟨hrow, hkeep⟩
        rw [Bool.not_eq_eq_eq_not, Bool.not_true, Bool.and_eq_false_iff] at hkeep
        refine ⟨(mem_get_seeded_ids db u a i hga).mpr ⟨row, hrow, hart, hsd, hdev⟩, ?_⟩
        rcases hkeep with hk | hk
        · exact absurd hart (by simpa using hk)
        · rw [hdev] at hk
          simpa using hk
      · rintro ⟨hi, hnm⟩
        rcases (mem_get_seeded_ids db u a i hga).mp hi with ⟨row, hrow, hart, hsd, hdev⟩
        refine ⟨row, List.mem_filter.mpr ⟨hrow, ?_⟩, hart, hsd, hdev⟩
        simp [hart, hdev]
        by_cases hie : i = ""
        · exact Or.inr hie
        · exact Or.inl fun x hx hpx => absurd
            (List.mem_filter.mpr ⟨List.mem_map.mpr ⟨x, hx, hpx⟩, by simpa using hie⟩) hnm

theorem mem_seen_trim (db : DbState) (u : String) (m : Int) (v : String) (i : String)
    (h : i ∈ get_seen_ids (trim_seen db u m) v) : i ∈ get_seen_ids db v := by
  unfold trim_seen at h
  by_cases h1 : m < 1
  · rwa [if_pos h1] at h
  · rw [if_neg h1] at h
    cases hga : _get_artist_id db u with
    | none => rwa [hga] at h
    | some a =>
      rw [hga] at h
      dsimp only at h
      cases hgv : _get_artist_id db v with
      | none =>
        rw [get_seen_ids_seen_none db _ db.nextSeenId v hgv] at h
        exact absurd h (List.not_mem_nil i)
      | some bb =>
        rw [mem_get_seen_ids_seen db _ db.nextSeenId v bb i hgv] at h
        rcases h with ⟨row, hrowf, hart, hdev⟩
        exact (mem_get_seen_ids db v bb i hgv).mpr
          ⟨row, (List.mem_filter.mp hrowf).1, hart, hdev⟩

theorem mem_seeded_trim (db : DbState) (u : String) (m : Int) (v : String) (i : String)
    (h : i ∈ get_seeded_ids (trim_seen db u m) v) : i ∈ get_seeded_ids db v := by
  unfold trim_seen at h
  by_cases h1 : m < 1
  · rwa [if_pos h1] at h
  · rw [if_neg h1] at h
    cases hga : _get_artist_id db u with
    | none => rwa [hga] at h
    | some a =>
      rw [hga] at h
      dsimp only at h
      cases hgv : _get_artist_id db v with
      | none =>
        rw [get_seeded_ids_seen_none db _ db.nextSeenId v hgv] at h
        exact absurd h (List.not_mem_nil i)
      | some bb =>
        rw [mem_get_seeded_ids_seen db _ db.nextSeenId v bb i hgv] at h
        rcases h with ⟨row, hrowf, hart, hsd, hdev⟩
        exact (mem_get_seeded_ids db v bb i hgv).mpr
          ⟨row, (List.mem_filter.mp hrowf).1, hart, hsd, hdev⟩

theorem get_seen_ids_upsert_image (db : DbState) (u dev : String) (fp od : List String)
    (fs : Fs) (t : String) (tg : List String) (v : String) (hwf : SeenWf db) :
    get_seen_ids (upsert_image db u dev fp od fs t tg) v = get_seen_ids db v := by
  unfold upsert_image
  cases getFile fs fp with
  | none => rfl
  | some e =>
    dsimp only
    split
    · exact get_seen_ids_get_or_create db u v hwf
    · exact get_seen_ids_get_or_create db u v hwf

theorem get_seeded_ids_upsert_image (db : DbState) (u dev : String) (fp od : List String)
    (fs : Fs) (t : String) (tg : List String) (v : String) (hwf : SeenWf db) :
    get_seeded_ids (upsert_image db u dev fp od fs t tg) v = get_seeded_ids db v := by
  unfold upsert_image
  cases getFile fs fp with
  | none => rfl
  | some e =>
    dsimp only
    split
    · exact get_seeded_ids_get_or_create db u v hwf
    · exact get_seeded_ids_get_or_create db u v hwf

theorem seenWf_remove (db : DbState) (u : String) (ids : List String) (hwf : SeenWf db) :
    SeenWf (remove_seen_ids db u ids) := by
  unfold remove_seen_ids
  dsimp only
  by_cases h0 : ((ids.map pyStrip).filter (fun s => s ≠ "")) = []
  · rwa [if_pos h0]
  · rw [if_neg h0]
    cases _get_artist_id db u with
    | none => exact hwf
    | some a =>
      exact ⟨fun row hrow => hwf.1 row (List.mem_filter.mp hrow).1, hwf.2⟩

theorem seenWf_trim (db : DbState) (u : String) (m : Int) (hwf : SeenWf db) :
    SeenWf (trim_seen db u m) := by
  unfold trim_seen
  by_cases h1 : m < 1
  · rwa [if_pos h1]
  · rw [if_neg h1]
    cases _get_artist_id db u with
    | none => exact hwf
    | some a =>
      exact ⟨fun row hrow => hwf.1 row (List.mem_filter.mp hrow).1, hwf.2⟩

theorem seenWf_upsert_image (db : DbState) (u dev : String) (fp od : List String)
    (fs : Fs) (t : String) (tg : List String) (hwf : SeenWf db) :
    SeenWf (upsert_image db u dev fp od fs t tg) := by
  unfold upsert_image
  cases getFile fs fp with
  | none => exact hwf
  | some e =>
    dsimp only
    split
    · exact seenWf_get_or_create db u hwf
    · exact seenWf_get_or_create db u hwf

/-- The synchronization invariant between the in-memory id sets and the store. -/
def LoopWf (u : String) (s : LoopState) : Prop :=
  SeenWf s.db ∧
  (∀ i, i ∈ s.seen_set ↔ i ∈ get_seen_ids s.db u) ∧
  (∀ i, i ∈ s.seeded_set ↔ i ∈ get_seeded_ids s.db u)

theorem exceptBind_ok {α β : Type} {x : Except ApiFailure α} {f : α → Except ApiFailure β}
    {b : β} (h : (x >>= f) = .ok b) : ∃ a, x = .ok a ∧ f a = .ok b := by
  cases x with
  | error e => exact absurd h (by simp [Bind.bind, Except.bind])
  | ok a => exact ⟨a, rfl, by simpa [Bind.bind, Except.bind] using h⟩

theorem ids2_single (dev : String) (hdev : pyStrip dev = dev) (hne : dev ≠ "") :
    ((([dev].map pyStrip).filter (fun s => s ≠ ""))) = [dev] := by
  simp [hdev, hne]

theorem loopWf_unmark (u : String) (s : LoopState) (dev : String)
    (hdev : pyStrip dev = dev) (hne : dev ≠ "") (h : LoopWf u s) :
    LoopWf u (unmark_seen u s dev) := by
  obtain ⟨hwf, hsn, hsd⟩ := h
  refine ⟨seenWf_remove _ _ _ hwf, fun i => ?_, fun i => ?_⟩
  · show i ∈ s.seen_set.filter (fun x => x ≠ dev) ↔
      i ∈ get_seen_ids (remove_seen_ids s.db u [dev]) u
    rw [mem_seen_remove, ids2_single dev hdev hne, List.mem_filter]
    constructor
    · rintro ⟨h1, h2⟩
      exact ⟨(hsn i).mp h1, by simpa using h2⟩
    · rintro ⟨h1, h2⟩
      exact ⟨(hsn i).mpr h1, by simpa using h2⟩
  · show i ∈ s.seeded_set.filter (fun x => x ≠ dev) ↔
      i ∈ get_seeded_ids (remove_seen_ids s.db u [dev]) u
    rw [mem_seeded_remove, ids2_single dev hdev hne, List.mem_filter]
    constructor
    · rintro ⟨h1, h2⟩
      exact ⟨(hsd i).mp h1, by simpa using h2⟩
    · rintro ⟨h1, h2⟩
      exact ⟨(hsd i).mpr h1, by simpa using h2⟩

theorem loopWf_mark (u : String) (s : LoopState) (dev : String) (b : Bool)
    (h : LoopWf u s) : LoopWf u (mark_seen u s dev b) := by
  obtain ⟨hwf, hsn, hsd⟩ := h
  refine ⟨seenWf_upsert_seen _ _ _ _ hwf, fun i => ?_, fun i => ?_⟩
  · show i ∈ (if dev ∈ s.seen_set then s.seen_set else dev :: s.seen_set) ↔
      i ∈ get_seen_ids (upsert_seen s.db u dev b) u
    rw [mem_seen_upsert s.db u dev b i hwf]
    by_cases hin : dev ∈ s.seen_set
    · rw [if_pos hin]
      constructor
      · exact fun hi => Or.inr ((hsn i).mp hi)
      · rintro (rfl | hi)
        · exact hin
        · exact (hsn i).mpr hi
    · rw [if_neg hin]
      rw [List.mem_cons]
      constructor
      · rintro (rfl | hi)
        · exact Or.inl rfl
        · exact Or.inr ((hsn i).mp hi)
      · rintro (rfl | hi)
        · exact Or.inl rfl
        · exact Or.inr ((hsn i).mpr hi)
  · show i ∈ (if b then (if dev ∈ s.seeded_set then s.seeded_set else dev :: s.seeded_set)
        else s.seeded_set.filter (fun x => x ≠ dev)) ↔
      i ∈ get_seeded_ids (upsert_seen s.db u dev b) u
    rw [mem_seeded_upsert s.db u dev b i hwf]
    cases b with
    | true =>
      rw [if_pos rfl]
      by_cases hin : dev ∈ s.seeded_set
      · rw [if_pos hin]
        constructor
        · intro hi
          by_cases hie : i = dev
          · exact Or.inl ⟨hie, rfl⟩
          · exact Or.inr ⟨hie, (hsd i).mp hi⟩
        · rintro (⟨rfl, _⟩ | ⟨_, hi⟩)
          · exact hin
          · exact (hsd i).mpr hi
      · rw [if_neg hin, List.mem_cons]
        constructor
        · rintro (rfl | hi)
          · exact Or.inl ⟨rfl, rfl⟩
          · by_cases hie : i = dev
            · exact Or.inl ⟨hie, rfl⟩
            · exact Or.inr ⟨hie, (hsd i).mp hi⟩
        · rintro (⟨rfl, _⟩ | ⟨_, hi⟩)
          · exact Or.inl rfl
          · exact Or.inr ((hsd i).mpr hi)
    | false =>
      rw [if_neg (by simp)]
      rw [List.mem_filter]
      constructor
      · rintro ⟨h1, h2⟩
        exact Or.inr ⟨by simpa using h2, (hsd i).mp h1⟩
      · rintro (⟨_, hb⟩ | ⟨hne2, hi⟩)
        · exact absurd hb (by simp)
        · exact ⟨(hsd i).mpr hi, by simpa using hne2⟩

theorem loopWf_upsert_image (u : String) (s : LoopState) (dev : String)
    (fp od : List String) (fs2 : Fs) (t : String) (tg : List String)
    (h : LoopWf u s) :
    LoopWf u { s with db := upsert_image s.db u dev fp od fs2 t tg } := by
  obtain ⟨hwf, hsn, hsd⟩ := h
  refine ⟨seenWf_upsert_image _ _ _ _ _ _ _ _ hwf, fun i => ?_, fun i => ?_⟩
  · show i ∈ s.seen_set ↔ i ∈ get_seen_ids (upsert_image s.db u dev fp od fs2 t tg) u
    rw [get_seen_ids_upsert_image _ _ _ _ _ _ _ _ u hwf]
    exact hsn i
  · show i ∈ s.seeded_set ↔ i ∈ get_seeded_ids (upsert_image s.db u dev fp od fs2 t tg) u
    rw [get_seeded_ids_upsert_image _ _ _ _ _ _ _ _ u hwf]
    exact hsd i

theorem except_pure_ok {α : Type} {a b : α} (h : (pure a : Except ApiFailure α) = .ok b) :
    a = b := by
  simpa [pure, Except.pure] using h

/-- What one download attempt does to the loop state: the loop invariant is
kept, the processed set is untouched, ids other than the current one never
become seen, and either the download raised (seen set untouched, the id is
appended to the failed list, skipped is bumped) or it returned (failed list
and skipped untouched, only the current id may have become seen). -/
theorem finishDownload_master (cfg : AppConfig) (client : Client)
    (u dev title url : String) (pref : Option String) (tags : List String)
    (s2 : LoopState) (hwf2 : LoopWf u s2) :
    LoopWf u (finishDownload cfg client u dev title url pref tags s2) ∧
    (finishDownload cfg client u dev title url pref tags s2).processed = s2.processed ∧
    (∀ X, X ∉ s2.seen_set → X ≠ dev →
      X ∉ (finishDownload cfg client u dev title url pref tags s2).seen_set) ∧
    (((finishDownload cfg client u dev title url pref tags s2).seen_set = s2.seen_set ∧
      (finishDownload cfg client u dev title url pref tags s2).failedDownloads =
        dev :: s2.failedDownloads ∧
      (finishDownload cfg client u dev title url pref tags s2).skipped = s2.skipped + 1) ∨
     ((finishDownload cfg client u dev title url pref tags s2).failedDownloads =
        s2.failedDownloads ∧
      (finishDownload cfg client u dev title url pref tags s2).skipped = s2.skipped ∧
      (∀ X ∈ (finishDownload cfg client u dev title url pref tags s2).seen_set,
        X = dev ∨ X ∈ s2.seen_set))) := by
  unfold finishDownload
  dsimp only
  generalize build_output_path cfg.output_dir u dev title url pref = OP
  generalize download_file s2.fs OP (client.net url) = DL
  split
  · -- the download raised and was caught
    refine ⟨hwf2, rfl, fun X hX _ => hX, Or.inl ⟨rfl, rfl, rfl⟩⟩
  · -- the download returned
    rename_i created heq
    cases created
    · refine ⟨?_, rfl, ?_, Or.inr ⟨rfl, rfl, ?_⟩⟩
      · exact loopWf_upsert_image u
          (mark_seen u { s2 with downloadCalls := s2.downloadCalls + 1, fs := DL.fs }
            dev false) dev OP cfg.output_dir DL.fs title tags
          (loopWf_mark u { s2 with downloadCalls := s2.downloadCalls + 1, fs := DL.fs }
            dev false hwf2)
      · intro X hX hne
        show X ∉ (if dev ∈ s2.seen_set then s2.seen_set else dev :: s2.seen_set)
        split
        · exact hX
        · intro hc
          rcases List.mem_cons.mp hc with he | hc2
          · exact hne he
          · exact hX hc2
      · intro X hX
        have hX2 : X ∈ (if dev ∈ s2.seen_set then s2.seen_set else dev :: s2.seen_set) := hX
        by_cases hd : dev ∈ s2.seen_set
        · rw [if_pos hd] at hX2
          exact Or.inr hX2
        · rw [if_neg hd] at hX2
          rcases List.mem_cons.mp hX2 with he | hc2
          · exact Or.inl he
          · exact Or.inr hc2
    · refine ⟨?_, rfl, ?_, Or.inr ⟨rfl, rfl, ?_⟩⟩
      · exact loopWf_upsert_image u
          (mark_seen u { s2 with downloadCalls := s2.downloadCalls + 1, fs := DL.fs }
            dev false) dev OP cfg.output_dir DL.fs title tags
          (loopWf_mark u { s2 with downloadCalls := s2.downloadCalls + 1, fs := DL.fs }
            dev false hwf2)
      · intro X hX hne
        show X ∉ (if dev ∈ s2.seen_set then s2.seen_set else dev :: s2.seen_set)
        split
        · exact hX
        · intro hc
          rcases List.mem_cons.mp hc with he | hc2
          · exact hne he
          · exact hX hc2
      · intro X hX
        have hX2 : X ∈ (if dev ∈ s2.seen_set then s2.seen_set else dev :: s2.seen_set) := hX
        by_cases hd : dev ∈ s2.seen_set
        · rw [if_pos hd] at hX2
          exact Or.inr hX2
        · rw [if_neg hd] at hX2
          rcases List.mem_cons.mp hX2 with he | hc2
          · exact Or.inl he
          · exact Or.inr hc2

/-- The per-item step facts shared by the run-level claims: the loop
invariant survives, processed ids and failed downloads only grow, an id that
was processed and unseen stays unseen, every newly failed download is
processed-but-unseen, the skipped counter grows at least as fast as the
failed list, and a seed-only step downloads nothing while seeding whatever it
processes. -/
theorem processItem_master (cfg : AppConfig) (client : Client) (u : String)
    (s : LoopState) (oitem : Option Item) (s' : LoopState)
    (h : processItem cfg client u s oitem = .ok s') (hwf : LoopWf u s) :
    LoopWf u s' ∧
    (∀ X ∈ s.processed, X ∈ s'.processed) ∧
    (∀ X, X ∈ s.processed → X ∉ s.seen_set → X ∉ s'.seen_set) ∧
    (∀ X ∈ s.failedDownloads, X ∈ s'.failedDownloads) ∧
    s'.failedDownloads.length + s.skipped ≤ s.failedDownloads.length + s'.skipped ∧
    (∀ X ∈ s'.failedDownloads, X ∈ s.failedDownloads ∨ (X ∉ s'.seen_set ∧ X ∈ s'.processed)) ∧
    (cfg.seed_only = true → s'.downloadCalls = s.downloadCalls ∧
      (∀ X ∈ s'.processed,
        (X ∈ s.processed ∧ (X ∈ s.seeded_set → X ∈ s'.seeded_set)) ∨ X ∈ s'.seeded_set)) := by
  cases oitem with
  | none =>
    rcases Except.ok.inj h with rfl
    exact ⟨hwf, fun X hX => hX, fun X _ hX => hX, fun X hX => hX, Nat.le_refl _,
      fun X hX => Or.inl hX, fun _ => ⟨rfl, fun X hX => Or.inl ⟨hX, fun hh => hh⟩⟩⟩
  | some item =>
    unfold processItem at h
    dsimp only at h
    by_cases h1 : (pyStrip item.deviationid = "" ∨ pyStrip item.deviationid ∈ s.processed)
    · rw [if_pos h1] at h
      rcases Except.ok.inj h with rfl
      exact ⟨hwf, fun X hX => hX, fun X _ hX => hX, fun X hX => hX, Nat.le_refl _,
        fun X hX => Or.inl hX, fun _ => ⟨rfl, fun X hX => Or.inl ⟨hX, fun hh => hh⟩⟩⟩
    · rw [if_neg h1] at h
      push_neg at h1
      obtain ⟨hne, hnp⟩ := h1
      by_cases h2 : (pyStrip item.deviationid ∈ s.seen_set ∧
          (pyStrip item.deviationid ∈ s.seeded_set ∨ pyStrip item.deviationid ∈ s.local_ids))
      · rw [if_pos h2] at h
        rcases Except.ok.inj h with rfl
        exact ⟨hwf, fun X hX => hX, fun X _ hX => hX, fun X hX => hX, Nat.le_refl _,
          fun X hX => Or.inl hX, fun _ => ⟨rfl, fun X hX => Or.inl ⟨hX, fun hh => hh⟩⟩⟩
      · rw [if_neg h2] at h
        have hdevstrip : pyStrip (pyStrip item.deviationid) = pyStrip item.deviationid :=
          pyStrip_idem item.deviationid
        have hstep1 : ∃ s1,
            (if pyStrip item.deviationid ∈ s.seen_set
              then unmark_seen u s (pyStrip item.deviationid) else s) = s1 ∧
            LoopWf u s1 ∧ s1.processed = s.processed ∧
            s1.failedDownloads = s.failedDownloads ∧ s1.skipped = s.skipped ∧
            s1.downloadCalls = s.downloadCalls ∧
            pyStrip item.deviationid ∉ s1.seen_set ∧
            (∀ X, X ∉ s.seen_set → X ∉ s1.seen_set) ∧
            (∀ X, X ∈ s.seeded_set → X ≠ pyStrip item.deviationid → X ∈ s1.seeded_set) := by
          by_cases hseen : pyStrip item.deviationid ∈ s.seen_set
          · refine ⟨unmark_seen u s (pyStrip item.deviationid), if_pos hseen,
              loopWf_unmark u s (pyStrip item.deviationid) hdevstrip hne hwf,
              rfl, rfl, rfl, rfl, ?_, ?_, ?_⟩
            · show pyStrip item.deviationid ∉
                s.seen_set.filter (fun x => x ≠ pyStrip item.deviationid)
              simp
            · intro X hX hc
              exact hX (List.mem_filter.mp hc).1
            · intro X hX hne2
              exact List.mem_filter.mpr ⟨hX, by simpa using hne2⟩
          · exact ⟨s, if_neg hseen, hwf, rfl, rfl, rfl, rfl, hseen,
              fun X hX => hX, fun X hX _ => hX⟩
        obtain ⟨s1, hs1eq, hwf1, hproc1, hfail1, hskip1, hdl1, hdevnot1, hseenmono1, hseeded1⟩ :=
          hstep1
        rw [hs1eq] at h
        by_cases hseedonly : cfg.seed_only = true
        · rw [if_pos hseedonly] at h
          rcases Except.ok.inj h with rfl
          -- s' = mark_seen u s2 dev true with s2 the processed/new_items bump of s1
          refine ⟨?_, ?_, ?_, ?_, ?_, ?_, ?_⟩
          · exact loopWf_mark u _ (pyStrip item.deviationid) true hwf1
          · intro X hX
            show X ∈ pyStrip item.deviationid :: s1.processed
            rw [hproc1]
            exact List.mem_cons_of_mem _ hX
          · intro X hXp hXs
            show X ∉ (if pyStrip item.deviationid ∈ s1.seen_set then s1.seen_set
              else pyStrip item.deviationid :: s1.seen_set)
            have hXne : X ≠ pyStrip item.deviationid := fun he => hnp (he ▸ hXp)
            have hXs1 : X ∉ s1.seen_set := hseenmono1 X hXs
            split
            · exact hXs1
            · intro hc
              rcases List.mem_cons.mp hc with he | hc2
              · exact hXne he
              · exact hXs1 hc2
          · intro X hX
            show X ∈ s1.failedDownloads
            rw [hfail1]
            exact hX
          · show s1.failedDownloads.length + s.skipped ≤
              s.failedDownloads.length + s1.skipped
            rw [hfail1, hskip1]
          · intro X hX
            exact Or.inl (by rwa [hfail1] at hX)
          · intro _
            constructor
            · show s1.downloadCalls = s.downloadCalls
              exact hdl1
            · intro X hX
              rcases List.mem_cons.mp hX with he | hX2
              · refine Or.inr ?_
                rw [he]
                show pyStrip item.deviationid ∈
                  (if pyStrip item.deviationid ∈ s1.seeded_set then s1.seeded_set
                    else pyStrip item.deviationid :: s1.seeded_set)
                split
                · assumption
                · exact List.mem_cons_self _ _
              · rw [hproc1] at hX2
                refine Or.inl ⟨hX2, fun hXsd => ?_⟩
                have hXne : X ≠ pyStrip item.deviationid := fun he => hnp (he ▸ hX2)
                have hXs1 : X ∈ s1.seeded_set := hseeded1 X hXsd hXne
                show X ∈ (if pyStrip item.deviationid ∈ s1.seeded_set then s1.seeded_set
                  else pyStrip item.deviationid :: s1.seeded_set)
                split
                · exact hXs1
                · exact List.mem_cons_of_mem _ hXs1
        · rw [if_neg hseedonly] at h
          by_cases hdel : item.is_deleted = true
          · rw [if_pos hdel] at h
            rcases Except.ok.inj h with rfl
            refine ⟨hwf1, ?_, ?_, ?_, ?_, ?_, fun hc => absurd hc hseedonly⟩
            · intro X hX
              show X ∈ pyStrip item.deviationid :: s1.processed
              rw [hproc1]
              exact List.mem_cons_of_mem _ hX
            · intro X hXp hXs
              exact hseenmono1 X hXs
            · intro X hX
              show X ∈ s1.failedDownloads
              rw [hfail1]
              exact hX
            · show s1.failedDownloads.length + s.skipped ≤
                s.failedDownloads.length + (s1.skipped + 1)
              rw [hfail1, hskip1]
              omega
            · intro X hX
              exact Or.inl (by rwa [hfail1] at hX)
          · rw [if_neg hdel] at h
            rcases exceptBind_ok h with ⟨dlinfo, _, h⟩
            by_cases hurl : choose_download_url cfg item dlinfo.1 = ""
            · rw [if_pos hurl] at h
              rcases except_pure_ok h with rfl
              refine ⟨hwf1, ?_, ?_, ?_, ?_, ?_, fun hc => absurd hc hseedonly⟩
              · intro X hX
                show X ∈ pyStrip item.deviationid :: s1.processed
                rw [hproc1]
                exact List.mem_cons_of_mem _ hX
              · intro X hXp hXs
                exact hseenmono1 X hXs
              · intro X hX
                show X ∈ s1.failedDownloads
                rw [hfail1]
                exact hX
              · show s1.failedDownloads.length + s.skipped ≤
                  s.failedDownloads.length + (s1.skipped + 1)
                rw [hfail1, hskip1]
                omega
              · intro X hX
                exact Or.inl (by rwa [hfail1] at hX)
            · rw [if_neg hurl] at h
              rcases exceptBind_ok h with ⟨tags, _, h⟩
              rcases except_pure_ok h with rfl
              obtain ⟨hFwf, hFproc, hFnon, hFcase⟩ :=
                finishDownload_master cfg client u (pyStrip item.deviationid)
                  (pyOrStr (pyStrip (pyOrStr item.title (pyStrip item.deviationid)))
                    (pyStrip item.deviationid))
                  (choose_download_url cfg item dlinfo.1) dlinfo.2 tags
                  { s1 with processed := pyStrip item.deviationid :: s1.processed,
                            new_items := s1.new_items + 1 }
                  hwf1
              refine ⟨hFwf, ?_, ?_, ?_, ?_, ?_, fun hc => absurd hc hseedonly⟩
              · intro X hX
                rw [hFproc]
                show X ∈ pyStrip item.deviationid :: s1.processed
                rw [hproc1]
                exact List.mem_cons_of_mem _ hX
              · intro X hXp hXs
                refine hFnon X ?_ ?_
                · show X ∉ s1.seen_set
                  exact hseenmono1 X hXs
                · exact fun he => hnp (he ▸ hXp)
              · intro X hX
                rcases hFcase with ⟨hsn, hfl, hsk⟩ | ⟨hfl, hsk, hmem⟩
                · rw [hfl]
                  refine List.mem_cons_of_mem _ ?_
                  show X ∈ s1.failedDownloads
                  rw [hfail1]
                  exact hX
                · rw [hfl]
                  show X ∈ s1.failedDownloads
                  rw [hfail1]
                  exact hX
              · rcases hFcase with ⟨hsn, hfl, hsk⟩ | ⟨hfl, hsk, hmem⟩
                · rw [hfl, hsk]
                  show (pyStrip item.deviationid :: s1.failedDownloads).length + s.skipped ≤
                    s.failedDownloads.length + (s1.skipped + 1)
                  rw [List.length_cons, hfail1, hskip1]
                  omega
                · rw [hfl, hsk]
                  show s1.failedDownloads.length + s.skipped ≤
                    s.failedDownloads.length + s1.skipped
                  rw [hfail1, hskip1]
              · intro X hX
                rcases hFcase with ⟨hsn, hfl, hsk⟩ | ⟨hfl, hsk, hmem⟩
                · rw [hfl] at hX
                  rcases List.mem_cons.mp hX with he | hX2
                  · refine Or.inr ⟨?_, ?_⟩
                    · rw [hsn, he]
                      show pyStrip item.deviationid ∉ s1.seen_set
                      exact hdevnot1
                    · rw [hFproc, he]
                      show pyStrip item.deviationid ∈
                        pyStrip item.deviationid :: s1.processed
                      exact List.mem_cons_self _ _
                  · refine Or.inl ?_
                    rw [← hfail1]
                    exact hX2
                · rw [hfl] at hX
                  refine Or.inl ?_
                  rw [← hfail1]
                  exact hX

/-- The facts one loop step guarantees between its pre- and post-state,
closed under composition: monotone processed and failed lists, unseen
processed ids stay unseen, skipped grows at least as fast as the failed
list, new failures are processed-but-unseen, and a seed-only step downloads
nothing while keeping processed ids seeded. -/
def StepFacts (cfg : AppConfig) (u : String) (s s' : LoopState) : Prop :=
  (∀ X ∈ s.processed, X ∈ s'.processed) ∧
  (∀ X, X ∈ s.processed → X ∉ s.seen_set → X ∉ s'.seen_set) ∧
  (∀ X ∈ s.failedDownloads, X ∈ s'.failedDownloads) ∧
  s'.failedDownloads.length + s.skipped ≤ s.failedDownloads.length + s'.skipped ∧
  (∀ X ∈ s'.failedDownloads, X ∈ s.failedDownloads ∨ (X ∉ s'.seen_set ∧ X ∈ s'.processed)) ∧
  (cfg.seed_only = true → s'.downloadCalls = s.downloadCalls ∧
    (∀ X ∈ s'.processed,
      (X ∈ s.processed ∧ (X ∈ s.seeded_set → X ∈ s'.seeded_set)) ∨ X ∈ s'.seeded_set))

theorem stepFacts_refl (cfg : AppConfig) (u : String) (s : LoopState) :
    StepFacts cfg u s s :=
  ⟨fun X hX => hX, fun X _ hX => hX, fun X hX => hX, Nat.le_refl _,
    fun X hX => Or.inl hX, fun _ => ⟨rfl, fun X hX => Or.inl ⟨hX, fun hh => hh⟩⟩⟩

theorem stepFacts_trans (cfg : AppConfig) (u : String) (s1 s2 s3 : LoopState)
    (h1 : StepFacts cfg u s1 s2) (h2 : StepFacts cfg u s2 s3) :
    StepFacts cfg u s1 s3 := by
  obtain ⟨a1, b1, c1, d1, e1, f1⟩ := h1
  obtain ⟨a2, b2, c2, d2, e2, f2⟩ := h2
  refine ⟨fun X hX => a2 X (a1 X hX),
    fun X hXp hXs => b2 X (a1 X hXp) (b1 X hXp hXs),
    fun X hX => c2 X (c1 X hX), by omega, ?_, ?_⟩
  · intro X hX
    rcases e2 X hX with hX1 | ⟨hns, hp⟩
    · rcases e1 X hX1 with hX0 | ⟨hns1, hp1⟩
      · exact Or.inl hX0
      · exact Or.inr ⟨b2 X hp1 hns1, a2 X hp1⟩
    · exact Or.inr ⟨hns, hp⟩
  · intro hs
    obtain ⟨hd1, hp1⟩ := f1 hs
    obtain ⟨hd2, hp2⟩ := f2 hs
    refine ⟨hd2.trans hd1, fun X hX => ?_⟩
    rcases hp2 X hX with ⟨hXp1, himp⟩ | hsd
    · rcases hp1 X hXp1 with ⟨hXp0, himp0⟩ | hsd1
      · exact Or.inl ⟨hXp0, fun h0 => himp (himp0 h0)⟩
      · exact Or.inr (himp hsd1)
    · exact Or.inr hsd

theorem processItem_step (cfg : AppConfig) (client : Client) (u : String)
    (s : LoopState) (oitem : Option Item) (s' : LoopState)
    (h : processItem cfg client u s oitem = .ok s') (hwf : LoopWf u s) :
    LoopWf u s' ∧ StepFacts cfg u s s' := by
  obtain ⟨a, b, c, d, e, f, g⟩ := processItem_master cfg client u s oitem s' h hwf
  exact ⟨a, b, c, d, e, f, g⟩

theorem processItems_master (cfg : AppConfig) (client : Client) (u : String) :
    ∀ (items : List (Option Item)) (s s' : LoopState),
      processItems cfg client u items s = .ok s' → LoopWf u s →
      LoopWf u s' ∧ StepFacts cfg u s s' := by
  intro items
  induction items with
  | nil =>
    intro s s' h hwf
    rcases Except.ok.inj h with rfl
    exact ⟨hwf, stepFacts_refl cfg u s⟩
  | cons it rest ih =>
    intro s s' h hwf
    have h' : (processItem cfg client u s it >>= fun s1 =>
        processItems cfg client u rest s1) = .ok s' := h
    rcases exceptBind_ok h' with ⟨s1, h1, h2⟩
    obtain ⟨hwf1, hsf1⟩ := processItem_step cfg client u s it s1 h1 hwf
    obtain ⟨hwf2, hsf2⟩ := ih s1 s' h2 hwf1
    exact ⟨hwf2, stepFacts_trans cfg u s s1 s' hsf1 hsf2⟩

theorem pageLoop_master (cfg : AppConfig) (client : Client) (u : String) :
    ∀ (fuel : Nat) (offset : Int) (s s' : LoopState),
      pageLoop cfg client u fuel offset s = .ok s' → LoopWf u s →
      LoopWf u s' ∧ StepFacts cfg u s s' := by
  intro fuel
  induction fuel with
  | zero =>
    intro offset s s' h hwf
    rcases Except.ok.inj h with rfl
    exact ⟨hwf, stepFacts_refl cfg u s⟩
  | succ n ih =>
    intro offset s s' h hwf
    rcases exceptBind_ok h with ⟨page, hp, h2⟩
    have hwf0 : LoopWf u { s with pages_checked := s.pages_checked + 1 } := hwf
    split at h2
    · rcases Except.ok.inj h2 with rfl
      exact ⟨hwf, stepFacts_refl cfg u s⟩
    · rename_i items heq
      rcases exceptBind_ok h2 with ⟨s1, hpi, h3⟩
      obtain ⟨hwf1, hsf1⟩ :=
        processItems_master cfg client u items _ s1 hpi hwf0
      have hsf1' : StepFacts cfg u s s1 := hsf1
      split at h3
      · rcases Except.ok.inj h3 with rfl
        exact ⟨hwf1, hsf1'⟩
      · split at h3
        · rcases Except.ok.inj h3 with rfl
          exact ⟨hwf1, hsf1'⟩
        · obtain ⟨hwf2, hsf2⟩ := ih _ s1 s' h3 hwf1
          exact ⟨hwf2, stepFacts_trans cfg u s s1 s' hsf1' hsf2⟩

theorem get_seen_ids_strip (db : DbState) (u : String)
    (hdb : ∀ row ∈ db.seen,
      pyStrip row.deviation_id = row.deviation_id ∧ row.deviation_id ≠ "") :
    ∀ i ∈ get_seen_ids db u, pyStrip i = i ∧ i ≠ "" := by
  intro i hi
  unfold get_seen_ids at hi
  cases hga : _get_artist_id db u with
  | none => rw [hga] at hi; simp at hi
  | some a =>
    rw [hga] at hi
    rcases List.mem_map.mp hi with ⟨row, hrow, rfl⟩
    exact hdb row (List.mem_filter.mp hrow).1

theorem seeded_subset_seen (db : DbState) (u : String) (i : String)
    (h : i ∈ get_seeded_ids db u) : i ∈ get_seen_ids db u := by
  unfold get_seeded_ids at h
  unfold get_seen_ids
  cases hga : _get_artist_id db u with
  | none => rw [hga] at h; simp at h
  | some a =>
    rw [hga] at h
    dsimp only at h ⊢
    rcases List.mem_map.mp h with ⟨row, hrow, rfl⟩
    have hr := List.mem_filter.mp hrow
    refine List.mem_map.mpr ⟨row, List.mem_filter.mpr ⟨hr.1, ?_⟩, rfl⟩
    have h2 := hr.2
    rw [Bool.and_eq_true] at h2
    exact h2.1

/-- The stale-seen recovery preserves the well-formedness of the store and
keeps the in-memory sets in sync with it. -/
theorem recovery_wf (db : DbState) (u : String) (local0 : List String)
    (hwf : SeenWf db)
    (hstrip : ∀ i ∈ get_seen_ids db u, pyStrip i = i ∧ i ≠ "") :
    SeenWf (stale_seen_recovery db u (get_seen_ids db u) (get_seeded_ids db u) local0).1 ∧
    (∀ i, i ∈ (stale_seen_recovery db u (get_seen_ids db u) (get_seeded_ids db u) local0).2.1 ↔
      i ∈ get_seen_ids
        (stale_seen_recovery db u (get_seen_ids db u) (get_seeded_ids db u) local0).1 u) ∧
    (∀ i, i ∈ (stale_seen_recovery db u (get_seen_ids db u) (get_seeded_ids db u) local0).2.2 ↔
      i ∈ get_seeded_ids
        (stale_seen_recovery db u (get_seen_ids db u) (get_seeded_ids db u) local0).1 u) := by
  unfold stale_seen_recovery
  dsimp only
  by_cases h0 : (get_seen_ids db u).filter
      (fun i => i ∉ get_seeded_ids db u ∧ i ∉ local0) = []
  · rw [if_pos h0]
    exact ⟨hwf, fun i => Iff.rfl, fun i => Iff.rfl⟩
  · rw [if_neg h0]
    have hsub : ∀ x ∈ (get_seen_ids db u).filter
        (fun i => i ∉ get_seeded_ids db u ∧ i ∉ local0), pyStrip x = x ∧ x ≠ "" :=
      fun x hx => hstrip x (List.mem_filter.mp hx).1
    have hse : (((get_seen_ids db u).filter
        (fun i => i ∉ get_seeded_ids db u ∧ i ∉ local0)).map pyStrip).filter
        (fun s => s ≠ "") = (get_seen_ids db u).filter
        (fun i => i ∉ get_seeded_ids db u ∧ i ∉ local0) := strip_filter_id _ hsub
    refine ⟨seenWf_remove _ _ _ hwf, fun i => ?_, fun i => ?_⟩
    · rw [mem_seen_remove, hse]
      simp only [List.mem_filter, decide_eq_true_eq]
    · rw [mem_seeded_remove, hse]
      simp only [List.mem_filter, decide_eq_true_eq]

/-- C2: in a reconciliation run (seed-only off), a `download_file` failure is
caught: the per-item handler leaves the whole store untouched (no seen mark,
no catalog upsert), bumps only the skipped counter and records the failure;
and the run completes, with every failed id processed this run but absent
from the account's seen store both before and after the final trim, and with
at least as many skips as failures. -/
theorem download_failure_not_seen (cfg : AppConfig) (client : Client)
    (db : DbState) (fs : Fs) (u : String) (sp : Int) (ep ps : Option Int)
    (r : RunResult)
    (hseed : cfg.seed_only = false)
    (hwf : SeenWf db)
    (hdb : ∀ row ∈ db.seen,
      pyStrip row.deviation_id = row.deviation_id ∧ row.deviation_id ≠ "")
    (hrun : process_user_once cfg client db fs u sp ep ps = .ok r) :
    (∀ X ∈ r.failedDownloads,
      X ∈ r.processedIds ∧
      X ∉ get_seen_ids r.dbBeforeTrim u ∧
      X ∉ get_seen_ids r.db u) ∧
    r.failedDownloads.length ≤ r.stats.skipped ∧
    (∀ (dev title url : String) (pref : Option String) (tags : List String)
      (s2 : LoopState),
      (download_file s2.fs (build_output_path cfg.output_dir u dev title url pref)
        (client.net url)).result = .error () →
      finishDownload cfg client u dev title url pref tags s2 =
        { s2 with
            downloadCalls := s2.downloadCalls + 1,
            fs := (download_file s2.fs
              (build_output_path cfg.output_dir u dev title url pref)
              (client.net url)).fs,
            skipped := s2.skipped + 1,
            failedDownloads := dev :: s2.failedDownloads }) := by
  unfold process_user_once at hrun
  rcases exceptBind_ok hrun with ⟨sF, hpl, hfin⟩
  rcases except_pure_ok hfin with rfl
  have hite : (if ¬cfg.seed_only = true then
      stale_seen_recovery db u (get_seen_ids db u) (get_seeded_ids db u)
        (collect_local_deviation_ids fs cfg.output_dir u)
    else (db, get_seen_ids db u, get_seeded_ids db u)) =
      stale_seen_recovery db u (get_seen_ids db u) (get_seeded_ids db u)
        (collect_local_deviation_ids fs cfg.output_dir u) := by
    rw [hseed]
    simp
  rw [hite] at hpl
  obtain ⟨hwfF, hsf⟩ := pageLoop_master cfg client u _ _ _ sF hpl
    (recovery_wf db u (collect_local_deviation_ids fs cfg.output_dir u) hwf
      (get_seen_ids_strip db u hdb))
  refine ⟨?_, ?_, ?_⟩
  · intro X hX
    have hX' : X ∈ sF.failedDownloads := hX
    rcases hsf.2.2.2.2.1 X hX' with h0 | ⟨hns, hp⟩
    · exact absurd (show X ∈ ([] : List String) from h0) (List.not_mem_nil X)
    · refine ⟨hp, ?_, ?_⟩
      · intro hc
        exact hns ((hwfF.2.1 X).mpr hc)
      · intro hc
        have hc2 : X ∈ get_seen_ids (trim_seen sF.db u cfg.max_seen) u := hc
        exact hns ((hwfF.2.1 X).mpr (mem_seen_trim sF.db u cfg.max_seen u X hc2))
  · have h5 : sF.failedDownloads.length + 0 ≤ 0 + sF.skipped := hsf.2.2.2.1
    show sF.failedDownloads.length ≤ sF.skipped
    omega
  · intro dev title url pref tags s2 he
    unfold finishDownload
    dsimp only
    rw [he]

/-- C5 (amended): a successful seed-only run never calls `download_file`, and
every id it processes is in the account's seen store with `seeded=true` when
the page walk ends — i.e. before the final `trim_seen`, which may still evict
the oldest rows (see the counterexample for the original claim). -/
theorem seed_only_marks_seeded (cfg : AppConfig) (client : Client)
    (db : DbState) (fs : Fs) (u : String) (sp : Int) (ep ps : Option Int)
    (r : RunResult)
    (hseed : cfg.seed_only = true)
    (hwf : SeenWf db)
    (hrun : process_user_once cfg client db fs u sp ep ps = .ok r) :
    r.downloadCalls = 0 ∧
    (∀ X ∈ r.processedIds,
      X ∈ get_seeded_ids r.dbBeforeTrim u ∧ X ∈ get_seen_ids r.dbBeforeTrim u) := by
  unfold process_user_once at hrun
  rcases exceptBind_ok hrun with ⟨sF, hpl, hfin⟩
  rcases except_pure_ok hfin with rfl
  have hite : (if ¬cfg.seed_only = true then
      stale_seen_recovery db u (get_seen_ids db u) (get_seeded_ids db u)
        (collect_local_deviation_ids fs cfg.output_dir u)
    else (db, get_seen_ids db u, get_seeded_ids db u)) =
      (db, get_seen_ids db u, get_seeded_ids db u) := by
    rw [hseed]
    simp
  rw [hite] at hpl
  obtain ⟨hwfF, hsf⟩ := pageLoop_master cfg client u _ _ _ sF hpl
    ⟨hwf, fun i => Iff.rfl, fun i => Iff.rfl⟩
  obtain ⟨hdl, hproc⟩ := hsf.2.2.2.2.2 hseed
  refine ⟨hdl.trans rfl, ?_⟩
  intro X hX
  have hX' : X ∈ sF.processed := hX
  rcases hproc X hX' with ⟨h0, _⟩ | hsd
  · exact absurd (show X ∈ ([] : List String) from h0) (List.not_mem_nil X)
  · have hm : X ∈ get_seeded_ids sF.db u := (hwfF.2.2 X).mp hsd
    exact ⟨hm, seeded_subset_seen sF.db u X hm⟩

def cfgC2W : AppConfig := ⟨false, true, false, 24, 1, 100, ["out"]⟩

def itemC2W : Item := ⟨"d1", "T", false, false, some "http://x/a.jpg", ["t"], none⟩

def clientC2W : Client :=
  { gallery := fun _ => .ok ⟨some [some itemC2W], false, none⟩,
    download_info := fun _ => .error .api,
    deviation := fun _ => .error .api,
    net := fun _ => .error () }

def dbC2W : DbState := ⟨[], 0, [], 0, []⟩

def runC2W : Except ApiFailure RunResult :=
  process_user_once cfgC2W clientC2W dbC2W [] "u" 1 none none

def rC2W : RunResult :=
  match runC2W with
  | .ok r => r
  | .error _ => ⟨⟨0, 0, 0, 0, 0⟩, dbC2W, [], dbC2W, [], [], dbC2W, [], 0, []⟩

/-- C2 witness: a concrete run in which the only item's download raises; the
id is processed yet ends up in no seen store, and the failure is counted as
skipped. -/
theorem download_failure_not_seen_witness :
    rC2W.failedDownloads = ["d1"] ∧
    ("d1" ∈ rC2W.processedIds ∧
      "d1" ∉ get_seen_ids rC2W.dbBeforeTrim "u" ∧
      "d1" ∉ get_seen_ids rC2W.db "u") ∧
    rC2W.failedDownloads.length ≤ rC2W.stats.skipped := by
  have h := download_failure_not_seen cfgC2W clientC2W dbC2W [] "u" 1 none none rC2W
    rfl ⟨fun r hr => absurd hr (List.not_mem_nil r), fun p hp => absurd hp (List.not_mem_nil p)⟩
    (fun row hrow => absurd hrow (List.not_mem_nil row)) rfl
  exact ⟨by decide, h.1 "d1" (by decide), h.2.1⟩

/-- Distinct deviation ids for the seed-only scenario. -/
def devC5 (k : Nat) : String := ⟨'d' :: List.replicate k 'x'⟩

def itemC5 (k : Nat) : Option Item := some ⟨devC5 k, "t", false, false, none, [], none⟩

/-- A gallery of 101 deviations served 24 per page. -/
def galleryC5 (off : Int) : Except ApiFailure Page :=
  .ok ⟨some ((List.range (min 24 (101 - off.toNat))).map (fun j => itemC5 (off.toNat + j))),
       decide (off.toNat + 24 < 101), some (off + 24)⟩

def clientC5 : Client :=
  { gallery := galleryC5,
    download_info := fun _ => .error .api,
    deviation := fun _ => .error .api,
    net := fun _ => .ok ([], none) }

def cfgC5 : AppConfig := ⟨true, false, false, 24, 5, 100, ["out"]⟩

def dbC5 : DbState := ⟨[], 0, [], 0, []⟩

def runC5 : Except ApiFailure RunResult :=
  process_user_once cfgC5 clientC5 dbC5 [] "artist" 1 none none

def rC5 : RunResult :=
  match runC5 with
  | .ok r => r
  | .error _ => ⟨⟨0, 0, 0, 0, 0⟩, dbC5, [], dbC5, [], [], dbC5, [], 0, []⟩

set_option maxRecDepth 100000 in
/-- C5 witness: a concrete seed-only run (101 items, `max_seen = 100`)
performs no download call, and the first observed id `"d"` is seeded in the
store when the page walk ends. -/
theorem seed_only_marks_seeded_witness :
    rC5.downloadCalls = 0 ∧
    ("d" ∈ get_seeded_ids rC5.dbBeforeTrim "artist" ∧
      "d" ∈ get_seen_ids rC5.dbBeforeTrim "artist") := by
  have h := seed_only_marks_seeded cfgC5 clientC5 dbC5 [] "artist" 1 none none rC5
    rfl ⟨fun r hr => absurd hr (List.not_mem_nil r), fun p hp => absurd hp (List.not_mem_nil p)⟩
    rfl
  exact ⟨h.1, h.2 "d" (by decide)⟩

set_option maxRecDepth 100000 in
/-- C5 counterexample to the original claim: in the same successful seed-only
run every observed id is upserted with `seeded=true` during the walk, but the
final `trim_seen` (101 rows, `max_seen = 100`) evicts the oldest row, so the
observed id `"d"` is NOT in the seeded set after the run. -/
theorem seed_only_claim_counterexample :
    cfgC5.seed_only = true ∧
    runC5 = .ok rC5 ∧
    "d" ∈ rC5.processedIds ∧
    "d" ∉ get_seeded_ids rC5.db "artist" := by
  exact ⟨rfl, rfl, by decide, by decide⟩

end DAW
